import Mathlib

/-!
# Verification of the MCTS repository (alex-shapiro/MCTS)

Shallow embedding of the repository's source files:
  * `src/game.rs`          — the `Game` trait, `Player`, `Cell`, `GameResult`, `TicTacToe`
  * `src/game/connect4.rs` — `Connect4`
  * `src/game/tetris.rs`   — `Tetris`
  * `src/mcts.rs`          — the TicTacToe-specific engine (`Mcts`, `Node`)
  * `src/mcts2.rs`         — the generic engine (`Mcts<S>`, `Node<S>`)

Modelling conventions:
  * Rust `f64`/`f32` accumulators (`visits`, `reward`, `wins`) are modelled as `ℚ`.
    Every arithmetic operation the engine performs on them (increments by `1.0`,
    `0.5`, `0.0`) is exact in binary floating point for all values reached in
    any feasible run, so `ℚ` agrees with the code on those operations.
  * The transcendental UCT score (`ln`, `sqrt`, `f64::INFINITY`) is modelled over
    `EReal` with `Real.log`/`Real.sqrt`; `+infinity` is `⊤`.
  * Rust panics (`unwrap`, out-of-bounds indexing) are modelled by `Option`:
    `none` is a panic/abort, `some x` is a normal return of `x`.
  * Fallible Rust functions returning `Result` are modelled with `Except String`.
  * The process-wide random sources (`fastrand`'s thread-local generator, the
    OS entropy that seeds `Tetris`'s `SmallRng`) are modelled as explicit
    streams `ℕ → ℕ` of draws, each draw reduced modulo the requested bound.
-/

set_option maxHeartbeats 4000000
set_option maxRecDepth 10000

namespace MctsVerify

/-! ## `src/game.rs`: players, cells, results -/

/-- `pub type Action = usize;` -/
abbrev Action := Nat

/-- `pub enum Player { X, O }` -/
inductive Player
  | X
  | O
deriving DecidableEq

/-- `Player::opponent` -/
def Player.opponent : Player → Player
  | .X => .O
  | .O => .X

/-- `pub enum Cell { Empty, Occupied(Player) }` -/
inductive Cell
  | Empty
  | Occupied (p : Player)
deriving DecidableEq

/-- `pub enum GameResult { Win(Player), Draw }` (src/game.rs:51-55; note this
enum has no `End` variant in the file shipped under src/). -/
inductive GameResult
  | Win (p : Player)
  | Draw
deriving DecidableEq

/-! ## `src/game.rs`: TicTacToe -/

/-- `pub struct TicTacToe { board: [Cell; 9], current_player, result }`.
The fixed-size array is a `List Cell` of length 9; all source indexing is
guarded by `action >= 9` checks or uses literal indices `< 9`. -/
structure TicTacToe where
  board : List Cell
  current_player : Player
  result : Option GameResult
deriving DecidableEq

namespace TicTacToe

/-- `impl Default for TicTacToe` -/
def init : TicTacToe :=
  { board := List.replicate 9 Cell.Empty, current_player := .X, result := none }

/-- `TicTacToe::is_terminal` -/
def is_terminal (s : TicTacToe) : Bool := s.result.isSome

/-- The `WIN_LINES` constant of `TicTacToe::update_result`. -/
def WIN_LINES : List (List Nat) :=
  [[0,1,2],[3,4,5],[6,7,8],[0,3,6],[1,4,7],[2,5,8],[0,4,8],[2,4,6]]

/-- One pass of the `for line in WIN_LINES` body: the line yields a winner iff
its first cell is occupied and all its cells equal that first cell. -/
def lineWinner (board : List Cell) (line : List Nat) : Option Player :=
  let cells := line.map fun i => board.getD i Cell.Empty
  match cells.head? with
  | some (Cell.Occupied p) =>
      if cells.all (fun c => c = Cell.Occupied p) then some p else none
  | _ => none

/-- `TicTacToe::update_result`, as the value the `result` field holds after the
call: the first winning line in `WIN_LINES` order, else `Draw` if the board is
full, else the previous `result`. -/
def updateResult (s : TicTacToe) : Option GameResult :=
  match WIN_LINES.findSome? (lineWinner s.board) with
  | some p => some (GameResult.Win p)
  | none =>
      if s.board.all (fun c => c ≠ Cell.Empty) then some GameResult.Draw
      else s.result

/-- `<TicTacToe as Game>::allowed_actions` -/
def allowed_actions (s : TicTacToe) : List Action :=
  if s.is_terminal then []
  else ((s.board.enum.filter fun p => p.2 = Cell.Empty).map fun p => p.1)

/-- `<TicTacToe as Game>::step` (src/game.rs:145-160), as the faithful
`&mut self` embedding: the returned pair is (the `Result<(), &str>`, the state
the receiver holds afterwards).  Each `return Err(..)` happens before any
write, so those branches carry the unmodified `s`. -/
def stepMut (s : TicTacToe) (action : Action) : Except String Unit × TicTacToe :=
  if action ≥ 9 then (.error "Position out of bounds", s)
  else if s.board.getD action Cell.Empty ≠ Cell.Empty then (.error "Cell already occupied", s)
  else if s.is_terminal then (.error "Game already finished", s)
  else
    let s1 : TicTacToe := { s with board := s.board.set action (Cell.Occupied s.current_player) }
    (.ok (), { s1 with result := updateResult s1,
                       current_player := s.current_player.opponent })

/-- `step` as a state transformer: the successor state on `Ok`, the error on
`Err` (the form the engine consumes after a `clone`). -/
def step (s : TicTacToe) (action : Action) : Except String TicTacToe :=
  match stepMut s action with
  | (.ok _, s') => .ok s'
  | (.error e, _) => .error e

end TicTacToe

/-! ## `src/game/connect4.rs`: Connect4 -/

namespace Connect4

/-- `const ROWS: usize = 6;` -/
def ROWS : Nat := 6

/-- `const COLS: usize = 7;` -/
def COLS : Nat := 7

end Connect4

/-- `pub struct Connect4 { board: [[Cell; COLS]; ROWS], current_player, result }`
with connect4.rs's `type Cell = Option<Player>`.  The fixed 6×7 array is a list
of row lists; all source indexing stays inside the constant loop bounds. -/
structure Connect4 where
  board : List (List (Option Player))
  current_player : Player
  result : Option GameResult
deriving DecidableEq

namespace Connect4

/-- `self.board[row][col]` (in-bounds by the loop ranges of the source). -/
def cellAt (board : List (List (Option Player))) (row col : Nat) : Option Player :=
  (board.getD row []).getD col none

/-- `impl Default for Connect4` -/
def init : Connect4 :=
  { board := List.replicate ROWS (List.replicate COLS none)
    current_player := .X
    result := none }

/-- `Connect4::is_terminal` -/
def is_terminal (s : Connect4) : Bool := s.result.isSome

/-- The horizontal scan of `Connect4::update_result`: first hit in row-major
order of `for row in 0..ROWS { for col in 0..COLS-3 { ... } }`. -/
def horizWin (board : List (List (Option Player))) : Option Player :=
  (List.range ROWS).findSome? fun row =>
    (List.range (COLS - 3)).findSome? fun col =>
      match cellAt board row col with
      | some player =>
          if (List.range 4).all (fun i => cellAt board row (col + i) = some player)
          then some player else none
      | none => none

/-- The vertical scan (`for row in 0..ROWS-3 { for col in 0..COLS { ... } }`). -/
def vertWin (board : List (List (Option Player))) : Option Player :=
  (List.range (ROWS - 3)).findSome? fun row =>
    (List.range COLS).findSome? fun col =>
      match cellAt board row col with
      | some player =>
          if (List.range 4).all (fun i => cellAt board (row + i) col = some player)
          then some player else none
      | none => none

/-- The bottom-left-to-top-right diagonal scan (`for row in 3..ROWS`). -/
def diagUpWin (board : List (List (Option Player))) : Option Player :=
  ((List.range ROWS).drop 3).findSome? fun row =>
    (List.range (COLS - 3)).findSome? fun col =>
      match cellAt board row col with
      | some player =>
          if (List.range 4).all (fun i => cellAt board (row - i) (col + i) = some player)
          then some player else none
      | none => none

/-- The top-left-to-bottom-right diagonal scan (`for row in 0..ROWS-3`). -/
def diagDownWin (board : List (List (Option Player))) : Option Player :=
  (List.range (ROWS - 3)).findSome? fun row =>
    (List.range (COLS - 3)).findSome? fun col =>
      match cellAt board row col with
      | some player =>
          if (List.range 4).all (fun i => cellAt board (row + i) (col + i) = some player)
          then some player else none
      | none => none

/-- `Connect4::update_result`, as the value the `result` field holds after the
call: the four scans in source order (each returning early), then the draw
check on the top row, else the previous `result`. -/
def updateResult (s : Connect4) : Option GameResult :=
  match horizWin s.board with
  | some p => some (GameResult.Win p)
  | none =>
    match vertWin s.board with
    | some p => some (GameResult.Win p)
    | none =>
      match diagUpWin s.board with
      | some p => some (GameResult.Win p)
      | none =>
        match diagDownWin s.board with
        | some p => some (GameResult.Win p)
        | none =>
            if (s.board.getD 0 []).all (fun c => c.isSome) then some GameResult.Draw
            else s.result

/-- `Connect4::drop_piece`, as the faithful `&mut self` embedding: scan
`(0..ROWS).rev()` for the lowest empty row of `col`; the single write happens
only on the `Ok` return, so the `Err("Column is full")` branch carries the
unmodified state. -/
def dropPieceMut (s : Connect4) (col : Nat) : Except String Unit × Connect4 :=
  match ((List.range ROWS).reverse.find? fun row => (cellAt s.board row col).isNone) with
  | some row =>
      (.ok (), { s with
                 board := s.board.set row ((s.board.getD row []).set col (some s.current_player)) })
  | none => (.error "Column is full", s)

/-- `<Connect4 as Game>::allowed_actions` -/
def allowed_actions (s : Connect4) : List Action :=
  if s.is_terminal then []
  else (List.range COLS).filter fun col => (cellAt s.board 0 col).isNone

/-- `<Connect4 as Game>::step` (connect4.rs:153-168), as the faithful
`&mut self` embedding.  The three `return Err(..)` checks precede any write,
and `drop_piece` writes only on its `Ok` path; the `?` on `drop_piece`
propagates its error with the state as `drop_piece` left it. -/
def stepMut (s : Connect4) (action : Action) : Except String Unit × Connect4 :=
  if action ≥ COLS then (.error "Column out of bounds", s)
  else if (cellAt s.board 0 action).isSome then (.error "Column is full", s)
  else if s.is_terminal then (.error "Game already finished", s)
  else
    match dropPieceMut s action with
    | (.error e, s1) => (.error e, s1)
    | (.ok _, s1) =>
        (.ok (), { s1 with result := updateResult s1,
                           current_player := s.current_player.opponent })

/-- `step` as a state transformer (the form the engine consumes). -/
def step (s : Connect4) (action : Action) : Except String Connect4 :=
  match stepMut s action with
  | (.ok _, s') => .ok s'
  | (.error e, _) => .error e

end Connect4

/-! ## `src/game/tetris.rs`: Tetris

The outcome type Tetris reports through `result`: tetris.rs returns
`GameResult::End(self.rewards as f64)`, i.e. it is written against a
`GameResult` with an `End(f64)` variant (the `GameResult` in the `game.rs`
shipped under src/ has only `Win | Draw`; spec §3 calls the full type
`Outcome`). -/

/-- The `Outcome` tagged union of spec §3: `Win(actor) | Draw | End(reward)`.
tetris.rs constructs its `End` variant; the scalar is modelled as `ℚ`. -/
inductive Outcome
  | Win (p : Player)
  | Draw
  | End (reward : ℚ)
deriving DecidableEq

/-- `pub enum Action` of tetris.rs (`#[repr(u8)]`). -/
inductive ActionT
  | NoOp
  | Left
  | Right
  | Rotate
  | SoftDrop
  | HardDrop
  | Hold
deriving DecidableEq

/-- The `u8` discriminant of a tetris.rs `Action` (`Action::NoOp as usize` …). -/
def ActionT.toNat : ActionT → Nat
  | .NoOp => 0
  | .Left => 1
  | .Right => 2
  | .Rotate => 3
  | .SoftDrop => 4
  | .HardDrop => 5
  | .Hold => 6

/-- `impl From<u8> for Action`: invalid values default to `NoOp`. -/
def ActionT.ofU8 : Nat → ActionT
  | 0 => .NoOp
  | 1 => .Left
  | 2 => .Right
  | 3 => .Rotate
  | 4 => .SoftDrop
  | 5 => .HardDrop
  | 6 => .Hold
  | _ => .NoOp

namespace Tetris

def NUM_TETROMINOES : Nat := 7
def NUM_ROTATIONS : Nat := 4
def DECK_SIZE : Nat := 2 * NUM_TETROMINOES
def NUM_ROWS : Nat := 20
def NUM_COLS : Nat := 10
def MAX_TICKS : Nat := 10000
def INITIAL_TICKS_PER_FALL : Nat := 6
def LINES_PER_LEVEL : Nat := 10
def SCORE_SOFT_DROP : Nat := 1
def SCORE_HARD_DROP : Nat := 2
def REWARD_HARD_DROP : ℚ := 2/100
def REWARD_ROTATE : ℚ := 1/100
def REWARD_INVALID_ACTION : ℚ := 0
def SCORE_COMBO : List Int := [0, 100, 300, 500, 1000]
def REWARD_COMBO : List ℚ := [0, 1/10, 3/10, 1/2, 1]

/-- `const TETROMINOES: [[[[u8; 4]; 4]; 4]; 7]` -/
def TETROMINOES : List (List (List (List Nat))) :=
  [ [ [[1,1,0,0],[1,1,0,0],[0,0,0,0],[0,0,0,0]],
      [[1,1,0,0],[1,1,0,0],[0,0,0,0],[0,0,0,0]],
      [[1,1,0,0],[1,1,0,0],[0,0,0,0],[0,0,0,0]],
      [[1,1,0,0],[1,1,0,0],[0,0,0,0],[0,0,0,0]] ],
    [ [[1,0,0,0],[1,0,0,0],[1,0,0,0],[1,0,0,0]],
      [[1,1,1,1],[0,0,0,0],[0,0,0,0],[0,0,0,0]],
      [[1,0,0,0],[1,0,0,0],[1,0,0,0],[1,0,0,0]],
      [[1,1,1,1],[0,0,0,0],[0,0,0,0],[0,0,0,0]] ],
    [ [[1,0,0,0],[1,1,0,0],[0,1,0,0],[0,0,0,0]],
      [[0,1,1,0],[1,1,0,0],[0,0,0,0],[0,0,0,0]],
      [[1,0,0,0],[1,1,0,0],[0,1,0,0],[0,0,0,0]],
      [[0,1,1,0],[1,1,0,0],[0,0,0,0],[0,0,0,0]] ],
    [ [[0,1,0,0],[1,1,0,0],[1,0,0,0],[0,0,0,0]],
      [[1,1,0,0],[0,1,1,0],[0,0,0,0],[0,0,0,0]],
      [[0,1,0,0],[1,1,0,0],[1,0,0,0],[0,0,0,0]],
      [[1,1,0,0],[0,1,1,0],[0,0,0,0],[0,0,0,0]] ],
    [ [[0,1,0,0],[1,1,0,0],[0,1,0,0],[0,0,0,0]],
      [[0,1,0,0],[1,1,1,0],[0,0,0,0],[0,0,0,0]],
      [[1,0,0,0],[1,1,0,0],[1,0,0,0],[0,0,0,0]],
      [[1,1,1,0],[0,1,0,0],[0,0,0,0],[0,0,0,0]] ],
    [ [[1,0,0,0],[1,0,0,0],[1,1,0,0],[0,0,0,0]],
      [[1,1,1,0],[1,0,0,0],[0,0,0,0],[0,0,0,0]],
      [[1,1,0,0],[0,1,0,0],[0,1,0,0],[0,0,0,0]],
      [[0,0,1,0],[1,1,1,0],[0,0,0,0],[0,0,0,0]] ],
    [ [[0,1,0,0],[0,1,0,0],[1,1,0,0],[0,0,0,0]],
      [[1,0,0,0],[1,1,1,0],[0,0,0,0],[0,0,0,0]],
      [[1,1,0,0],[1,0,0,0],[1,0,0,0],[0,0,0,0]],
      [[1,1,1,0],[0,0,1,0],[0,0,0,0],[0,0,0,0]] ] ]

/-- `const TETROMINO_FILL_COLS: [[u8; 4]; 7]` -/
def TETROMINO_FILL_COLS : List (List Nat) :=
  [[2,2,2,2],[1,4,1,4],[2,3,2,3],[2,3,2,3],[2,3,2,3],[2,3,2,3],[2,3,2,3]]

/-- `const TETROMINO_FILL_ROWS: [[u8; 4]; 7]` -/
def TETROMINO_FILL_ROWS : List (List Nat) :=
  [[2,2,2,2],[4,1,4,1],[3,2,3,2],[3,2,3,2],[3,2,3,2],[3,2,3,2],[3,2,3,2]]

/-- `TETROMINOES[t][rot][r][c]` -/
def tetCell (t rot r c : Nat) : Nat :=
  (((TETROMINOES.getD t []).getD rot []).getD r []).getD c 0

/-- `TETROMINO_FILL_COLS[t][rot]` -/
def fillCols (t rot : Nat) : Nat := (TETROMINO_FILL_COLS.getD t []).getD rot 0

/-- `TETROMINO_FILL_ROWS[t][rot]` -/
def fillRows (t rot : Nat) : Nat := (TETROMINO_FILL_ROWS.getD t []).getD rot 0

end Tetris

/-- `pub struct Tetris` (tetris.rs:76-105).  `grid: [i32; 200]` is a `List ℤ`;
the `SmallRng` (seeded in `Tetris::new` from the ambient `rand::rng()` OS
entropy) is modelled by an explicit draw stream `rngStream` plus a cursor
`rngPos`: the k-th `random_range(0..=i)` call yields `rngStream k % (i+1)`.
The `f32` accumulators `rewards`/`ep_return` are `ℚ`. -/
structure Tetris where
  rewards : ℚ
  is_terminal : Bool
  n_rows : Nat
  n_cols : Nat
  grid : List Int
  rngStream : Nat → Nat
  rngPos : Nat
  tick : Nat
  tick_fall : Nat
  ticks_per_fall : Nat
  score : Nat
  can_swap : Bool
  tetromino_deck : List Nat
  hold_tetromino : Option Nat
  cur_position_in_deck : Nat
  cur_tetromino : Nat
  cur_tetromino_row : Nat
  cur_tetromino_col : Nat
  cur_tetromino_rot : Nat
  ep_return : ℚ
  lines_deleted : Nat
  count_combos : Nat
  game_level : Nat
  atn_count_hard_drop : Nat
  atn_count_soft_drop : Nat
  atn_count_rotate : Nat
  atn_count_hold : Nat
  tetromino_counts : List Nat

namespace Tetris

/-- `self.grid[idx]` (all source accesses stay in bounds in real runs). -/
def gridAt (s : Tetris) (idx : Nat) : Int := s.grid.getD idx 0

/-- `array.swap(i, j)` on a list. -/
def swapL (l : List Nat) (i j : Nat) : List Nat :=
  (l.set i (l.getD j 0)).set j (l.getD i 0)

/-- The Fisher–Yates loop of `Tetris::refill_and_shuffle`
(`for i in (1..NUM_TETROMINOES).rev() { let j = rng.random_range(0..=i); swap }`),
with `i` counting down. -/
def fyLoop (stream : Nat → Nat) : Nat → List Nat → Nat → (List Nat × Nat)
  | 0, l, pos => (l, pos)
  | i+1, l, pos =>
      let j := stream pos % (i + 2)
      fyLoop stream i (swapL l (i+1) j) (pos+1)

/-- `Tetris::refill_and_shuffle` on one 7-element bag: refill with `0..7`,
then Fisher–Yates shuffle drawing from the stream. -/
def refillShuffle (stream : Nat → Nat) (pos : Nat) : (List Nat × Nat) :=
  fyLoop stream (NUM_TETROMINOES - 1) (List.range NUM_TETROMINOES) pos

/-- `Tetris::initialize_deck`: shuffle both 7-bags, reset the deck cursor. -/
def initialize_deck (s : Tetris) : Tetris :=
  let r1 := refillShuffle s.rngStream s.rngPos
  let r2 := refillShuffle s.rngStream r1.2
  let deck := r1.1 ++ r2.1
  { s with tetromino_deck := deck, rngPos := r2.2, cur_position_in_deck := 0,
           cur_tetromino := deck.getD 0 0 }

/-- `Tetris::spawn_new_tetromino` -/
def spawn_new_tetromino (s : Tetris) : Tetris :=
  let cpos := (s.cur_position_in_deck + 1) % DECK_SIZE
  let ct := s.tetromino_deck.getD cpos 0
  let s1 := { s with cur_position_in_deck := cpos, cur_tetromino := ct,
                     cur_tetromino_rot := 0 }
  let s2 :=
    if cpos = 0 then
      -- now using the first bag, so shuffle the second bag
      let r := refillShuffle s1.rngStream s1.rngPos
      { s1 with tetromino_deck := s1.tetromino_deck.take NUM_TETROMINOES ++ r.1,
                rngPos := r.2 }
    else if cpos = NUM_TETROMINOES then
      -- now using the second bag, so shuffle the first bag
      let r := refillShuffle s1.rngStream s1.rngPos
      { s1 with tetromino_deck := r.1 ++ s1.tetromino_deck.drop NUM_TETROMINOES,
                rngPos := r.2 }
    else s1
  { s2 with cur_tetromino_col := s2.n_cols / 2, cur_tetromino_row := 0,
            tick_fall := 0,
            tetromino_counts := s2.tetromino_counts.set ct
              (s2.tetromino_counts.getD ct 0 + 1) }

/-- `Tetris::can_spawn_new_tetromino` -/
def can_spawn_new_tetromino (s : Tetris) : Bool :=
  let next_pos := (s.cur_position_in_deck + 1) % DECK_SIZE
  let nt := s.tetromino_deck.getD next_pos 0
  (List.range (fillCols nt 0)).all fun c =>
    (List.range (fillRows nt 0)).all fun r =>
      !(s.gridAt (r * s.n_cols + c + s.n_cols / 2) != 0 && tetCell nt 0 r c == 1)

/-- `Tetris::can_soft_drop` -/
def can_soft_drop (s : Tetris) : Bool :=
  if s.cur_tetromino_row = s.n_rows - fillRows s.cur_tetromino s.cur_tetromino_rot
  then false
  else
    (List.range (fillCols s.cur_tetromino s.cur_tetromino_rot)).all fun c =>
      (List.range (fillRows s.cur_tetromino s.cur_tetromino_rot)).all fun r =>
        !(s.gridAt ((r + s.cur_tetromino_row + 1) * s.n_cols + c + s.cur_tetromino_col) != 0
          && tetCell s.cur_tetromino s.cur_tetromino_rot r c == 1)

/-- `Tetris::can_go_left` -/
def can_go_left (s : Tetris) : Bool :=
  if s.cur_tetromino_col = 0 then false
  else
    (List.range (fillCols s.cur_tetromino s.cur_tetromino_rot)).all fun c =>
      (List.range (fillRows s.cur_tetromino s.cur_tetromino_rot)).all fun r =>
        !(s.gridAt ((r + s.cur_tetromino_row) * s.n_cols + c + s.cur_tetromino_col - 1) != 0
          && tetCell s.cur_tetromino s.cur_tetromino_rot r c == 1)

/-- `Tetris::can_go_right` -/
def can_go_right (s : Tetris) : Bool :=
  if s.cur_tetromino_col = s.n_cols - fillCols s.cur_tetromino s.cur_tetromino_rot
  then false
  else
    (List.range (fillCols s.cur_tetromino s.cur_tetromino_rot)).all fun c =>
      (List.range (fillRows s.cur_tetromino s.cur_tetromino_rot)).all fun r =>
        !(s.gridAt ((r + s.cur_tetromino_row) * s.n_cols + c + s.cur_tetromino_col + 1) != 0
          && tetCell s.cur_tetromino s.cur_tetromino_rot r c == 1)

/-- `Tetris::can_hold` -/
def can_hold (s : Tetris) : Bool :=
  if !s.can_swap then false
  else
    match s.hold_tetromino with
    | none => true
    | some held =>
        let held_cols := fillCols held s.cur_tetromino_rot
        let held_rows := fillRows held s.cur_tetromino_rot
        if s.cur_tetromino_col + held_cols > s.n_cols then false
        else if s.cur_tetromino_row + held_rows > s.n_rows then false
        else
          (List.range held_cols).all fun c =>
            (List.range held_rows).all fun r =>
              !(s.gridAt ((r + s.cur_tetromino_row) * s.n_cols + c + s.cur_tetromino_col) != 0
                && tetCell held s.cur_tetromino_rot r c == 1)

/-- `Tetris::can_rotate` -/
def can_rotate (s : Tetris) : Bool :=
  let next_rot := (s.cur_tetromino_rot + 1) % NUM_ROTATIONS
  if s.cur_tetromino_col > s.n_cols - fillCols s.cur_tetromino next_rot then false
  else if s.cur_tetromino_row > s.n_rows - fillRows s.cur_tetromino next_rot then false
  else
    (List.range (fillCols s.cur_tetromino next_rot)).all fun c =>
      (List.range (fillRows s.cur_tetromino next_rot)).all fun r =>
        !(s.gridAt ((r + s.cur_tetromino_row) * s.n_cols + c + s.cur_tetromino_col) != 0
          && tetCell s.cur_tetromino next_rot r c == 1)

/-- `Tetris::is_full_row` -/
def is_full_row (s : Tetris) (row : Nat) : Bool :=
  (List.range s.n_cols).all fun c => !(s.gridAt (row * s.n_cols + c) == 0)

/-- The body of `Tetris::clear_row`'s copy loop at one row `r`:
`grid[r][c] = grid[r-1][c]` for each column. -/
def copyRowDown (ncols : Nat) (g : List Int) (r : Nat) : List Int :=
  (List.range ncols).foldl (fun g c => g.set (r * ncols + c) (g.getD ((r-1) * ncols + c) 0)) g

/-- The `for r in (1..=row).rev()` loop of `Tetris::clear_row`, with `r`
counting down from `row` to 1. -/
def clearRowLoop (ncols : Nat) (g : List Int) : Nat → List Int
  | 0 => g
  | r+1 => clearRowLoop ncols (copyRowDown ncols g (r+1)) r

/-- `Tetris::clear_row`: shift rows `0..row` down one, zero the top row. -/
def clear_row (s : Tetris) (row : Nat) : Tetris :=
  let g := clearRowLoop s.n_cols s.grid row
  { s with grid := (List.range s.n_cols).foldl (fun g c => g.set c 0) g }

/-- The grid-fill loop of `Tetris::place_tetromino` (`for c { for r { … } }`). -/
def fillGrid (s : Tetris) : Tetris :=
  { s with grid :=
      (List.range (fillCols s.cur_tetromino s.cur_tetromino_rot)).foldl (fun g c =>
        (List.range (fillRows s.cur_tetromino s.cur_tetromino_rot)).foldl (fun g r =>
          if tetCell s.cur_tetromino s.cur_tetromino_rot r c = 1 then
            g.set ((r + s.cur_tetromino_row) * s.n_cols + c + s.cur_tetromino_col)
              ((s.cur_tetromino : Int) + 1)
          else g) g) s.grid }

/-- The row-deletion loop of `Tetris::place_tetromino`
(`for _ in 0..FILL_ROWS { if is_full_row { clear_row; ld += 1 } else { rtc -= 1 } }`). -/
def deleteRowsLoop : Nat → Tetris → Nat → Nat → (Tetris × Nat)
  | 0, s, _, ld => (s, ld)
  | n+1, s, rtc, ld =>
      if s.is_full_row rtc then deleteRowsLoop n (s.clear_row rtc) rtc (ld + 1)
      else deleteRowsLoop n s (rtc - 1) ld

/-- `Tetris::place_tetromino` -/
def place_tetromino (s : Tetris) : Tetris :=
  let row_to_check := s.cur_tetromino_row
      + fillRows s.cur_tetromino s.cur_tetromino_rot - 1
  let s := { s with can_swap := true }
  let s := fillGrid s
  let r := deleteRowsLoop (fillRows s.cur_tetromino s.cur_tetromino_rot) s row_to_check 0
  let s := r.1
  let lines_deleted := r.2
  let s :=
    if lines_deleted > 0 then
      let lines_total := s.lines_deleted + lines_deleted
      let game_level := 1 + lines_total / LINES_PER_LEVEL
      { s with count_combos := s.count_combos + 1,
               lines_deleted := lines_total,
               score := s.score + (SCORE_COMBO.getD lines_deleted 0).toNat,
               rewards := s.rewards + REWARD_COMBO.getD lines_deleted 0,
               ep_return := s.ep_return + REWARD_COMBO.getD lines_deleted 0,
               game_level := game_level,
               ticks_per_fall :=
                 (max ((INITIAL_TICKS_PER_FALL : Int) - (game_level : Int) / 4) 3).toNat }
    else s
  if s.can_spawn_new_tetromino then s.spawn_new_tetromino
  else { s with is_terminal := true }

/-- `Tetris::restore_grid` + the field resets of `Tetris::reset`.  Note the
source's `reset` touches neither `rewards` nor `is_terminal`. -/
def reset (s : Tetris) : Tetris :=
  let s := { s with score := 0, hold_tetromino := none, tick := 0, game_level := 1,
                    ticks_per_fall := INITIAL_TICKS_PER_FALL, tick_fall := 0,
                    can_swap := true, ep_return := 0, count_combos := 0,
                    lines_deleted := 0, atn_count_hard_drop := 0,
                    atn_count_soft_drop := 0, atn_count_rotate := 0,
                    atn_count_hold := 0,
                    tetromino_counts := List.replicate NUM_TETROMINOES 0,
                    grid := List.replicate (NUM_ROWS * NUM_COLS) 0 }
  (s.initialize_deck).spawn_new_tetromino

/-- `Tetris::new`, with the `SmallRng` seeding replaced by the explicit draw
stream: the struct literal of tetris.rs:112-140 followed by `reset`. -/
def new (stream : Nat → Nat) : Tetris :=
  reset
    { rewards := 0, is_terminal := false, n_rows := NUM_ROWS, n_cols := NUM_COLS,
      grid := List.replicate (NUM_ROWS * NUM_COLS) 0,
      rngStream := stream, rngPos := 0,
      tick := 0, tick_fall := 0, ticks_per_fall := INITIAL_TICKS_PER_FALL,
      score := 0, can_swap := true,
      tetromino_deck := List.replicate DECK_SIZE 0,
      hold_tetromino := none, cur_position_in_deck := 0, cur_tetromino := 0,
      cur_tetromino_row := 0, cur_tetromino_col := 0, cur_tetromino_rot := 0,
      ep_return := 0, lines_deleted := 0, count_combos := 0, game_level := 1,
      atn_count_hard_drop := 0, atn_count_soft_drop := 0, atn_count_rotate := 0,
      atn_count_hold := 0,
      tetromino_counts := List.replicate NUM_TETROMINOES 0 }

/-- The `while self.can_soft_drop()` loop of the `HardDrop` arm, with fuel
(`none` models the panic/divergence that cannot occur in an in-bounds state). -/
def hardDropLoop : Nat → Tetris → Option Tetris
  | 0, s => if s.can_soft_drop then none else some s
  | fuel+1, s =>
      if s.can_soft_drop then
        hardDropLoop fuel
          { s with cur_tetromino_row := s.cur_tetromino_row + 1,
                   rewards := s.rewards + REWARD_HARD_DROP,
                   ep_return := s.ep_return + REWARD_HARD_DROP }
      else some s

/-- `Tetris::step` (the inherent method, tetris.rs:429-525).  `none` models a
panic or divergence of the hard-drop loop; every state arising in a real run
returns `some`. -/
def stepInner (s : Tetris) (action : ActionT) : Option Tetris :=
  let s := { s with is_terminal := false, rewards := 0, tick := s.tick + 1,
                    tick_fall := s.tick_fall + 1 }
  let afterAction : Option Tetris :=
    match action with
    | .Left =>
        some <| if s.can_go_left then { s with cur_tetromino_col := s.cur_tetromino_col - 1 }
        else { s with rewards := s.rewards + REWARD_INVALID_ACTION,
                      ep_return := s.ep_return + REWARD_INVALID_ACTION }
    | .Right =>
        some <| if s.can_go_right then { s with cur_tetromino_col := s.cur_tetromino_col + 1 }
        else { s with rewards := s.rewards + REWARD_INVALID_ACTION,
                      ep_return := s.ep_return + REWARD_INVALID_ACTION }
    | .Rotate =>
        let s := { s with atn_count_rotate := s.atn_count_rotate + 1 }
        some <| if s.can_rotate then
          { s with cur_tetromino_rot := (s.cur_tetromino_rot + 1) % NUM_ROTATIONS,
                   rewards := s.rewards + REWARD_ROTATE,
                   ep_return := s.ep_return + REWARD_ROTATE }
        else { s with rewards := s.rewards + REWARD_INVALID_ACTION,
                      ep_return := s.ep_return + REWARD_INVALID_ACTION }
    | .SoftDrop =>
        let s := { s with atn_count_soft_drop := s.atn_count_soft_drop + 1 }
        some <| if s.can_soft_drop then
          { s with cur_tetromino_row := s.cur_tetromino_row + 1,
                   score := s.score + SCORE_SOFT_DROP }
        else { s with rewards := s.rewards + REWARD_INVALID_ACTION,
                      ep_return := s.ep_return + REWARD_INVALID_ACTION }
    | .Hold =>
        let s := { s with atn_count_hold := s.atn_count_hold + 1 }
        some <| if s.can_hold then
          let t1 := s.cur_tetromino
          match s.hold_tetromino with
          | none =>
              let s := s.spawn_new_tetromino
              { s with hold_tetromino := some t1, can_swap := false }
          | some t2 =>
              { s with cur_tetromino := t2,
                       tetromino_deck := s.tetromino_deck.set s.cur_position_in_deck t2,
                       hold_tetromino := some t1, can_swap := false,
                       cur_tetromino_rot := 0, cur_tetromino_col := s.n_cols / 2,
                       cur_tetromino_row := 0, tick_fall := 0 }
        else { s with rewards := s.rewards + REWARD_INVALID_ACTION,
                      ep_return := s.ep_return + REWARD_INVALID_ACTION }
    | .HardDrop =>
        let s := { s with atn_count_hard_drop := s.atn_count_hard_drop + 1 }
        match hardDropLoop (s.n_rows + 1) s with
        | none => none
        | some s => some (({ s with score := s.score + SCORE_HARD_DROP }).place_tetromino)
    | .NoOp => some s
  match afterAction with
  | none => none
  | some s =>
      let s :=
        if s.tick_fall ≥ s.ticks_per_fall then
          let s := { s with tick_fall := 0 }
          if s.can_soft_drop then { s with cur_tetromino_row := s.cur_tetromino_row + 1 }
          else s.place_tetromino
        else s
      some (if s.is_terminal || s.tick ≥ MAX_TICKS then s.reset else s)

/-- `<Tetris as Game>::current_reward` -/
def current_reward (s : Tetris) : ℚ := s.rewards

/-- `<Tetris as Game>::result` -/
def result (s : Tetris) : Option Outcome :=
  if s.is_terminal then some (Outcome.End s.rewards) else none

/-- `<Tetris as Game>::allowed_actions` (tetris.rs:970-992): unconditionally
starts with `NoOp`, then appends each currently-possible action. -/
def allowed_actions (s : Tetris) : List Action :=
  [ActionT.NoOp.toNat]
  ++ (if s.can_go_left then [ActionT.Left.toNat] else [])
  ++ (if s.can_go_right then [ActionT.Right.toNat] else [])
  ++ (if s.can_rotate then [ActionT.Rotate.toNat] else [])
  ++ (if s.can_soft_drop then [ActionT.SoftDrop.toNat] else [])
  ++ (if s.can_spawn_new_tetromino then [ActionT.HardDrop.toNat] else [])
  ++ (if s.can_hold then [ActionT.Hold.toNat] else [])

/-- `<Tetris as Game>::current_player`: always `Player::X`. -/
def current_player (_ : Tetris) : Player := .X

/-- `<Tetris as Game>::step` (tetris.rs:998-1002): converts the `usize` through
`u8` into an `Action` (invalid values become `NoOp`), runs the inherent `step`,
and **always** returns `Ok(())`.  The outer `Option` is the panic monad of the
inherent step. -/
def stepG (s : Tetris) (action : Action) : Option (Except String Tetris) :=
  match stepInner s (ActionT.ofU8 (action % 256)) with
  | none => none
  | some s' => some (.ok s')

/-- A Tetris state is reachable when some entropy stream and action sequence
produce it from `Tetris::new` with every step returning normally. -/
def applySteps (s : Tetris) : List Action → Option Tetris
  | [] => some s
  | a :: rest =>
      match stepG s a with
      | some (.ok s') => applySteps s' rest
      | _ => none

/-- Reachability of a Tetris state from `Tetris::new`. -/
def Reachable (s : Tetris) : Prop :=
  ∃ (stream : Nat → Nat) (acts : List Action), applySteps (new stream) acts = some s

end Tetris

/-! ## `src/game.rs`: the `Game` trait, as the capability record the generic
engine of mcts2.rs consumes. -/

/-- `pub trait Game: Debug + Clone` (src/game.rs:5-10).  Cloning is implicit:
states are immutable values, so `state.clone()` is the identity. -/
structure GameI (S : Type) where
  result : S → Option GameResult
  allowed_actions : S → List Action
  current_player : S → Player
  step : S → Action → Except String S

/-- The `impl Game for TicTacToe` instance. -/
def tictactoeGame : GameI TicTacToe :=
  { result := TicTacToe.result
    allowed_actions := TicTacToe.allowed_actions
    current_player := TicTacToe.current_player
    step := TicTacToe.step }

/-- The `impl Game for Connect4` instance. -/
def connect4Game : GameI Connect4 :=
  { result := Connect4.result
    allowed_actions := Connect4.allowed_actions
    current_player := Connect4.current_player
    step := Connect4.step }

/-- Rust `Iterator::max_by` / `max_by_key` under a linear order: folds left,
keeping the **last** of equally-maximal elements; `none` on an empty iterator
(the call sites `unwrap` that `none`). -/
def rustMaxBy {α β : Type*} [LinearOrder β] (f : α → β) (l : List α) : Option α :=
  l.foldl (fun acc x =>
    match acc with
    | none => some x
    | some a => if f x < f a then some a else some x) none

/-! ## `src/mcts2.rs`: the generic engine -/

namespace Mcts2

/-- `struct Node<S>` (mcts2.rs:134-143).  `visits`/`reward` are `f64` in the
source, modelled as `ℚ` (all increments performed on them — `1.0`, `0.5`,
`0.0` — are exact in `f64` for any feasible visit count). -/
structure Node (S : Type) where
  state : S
  parent : Option Nat
  children : List Nat
  action : Option Action
  visits : ℚ
  reward : ℚ
  untried_actions : List Action

/-- `Node::new` (mcts2.rs:146-157). -/
def Node.new {S : Type} (G : GameI S) (parent : Option Nat) (state : S)
    (action : Option Action) : Node S :=
  { state := state, parent := parent, children := [], action := action,
    visits := 0, reward := 0, untried_actions := G.allowed_actions state }

/-- `Node::is_terminal` -/
def Node.is_terminal {S : Type} (G : GameI S) (n : Node S) : Bool :=
  (G.result n.state).isSome

/-- `Node::is_fully_expanded` -/
def Node.is_fully_expanded {S : Type} (n : Node S) : Bool :=
  n.untried_actions.isEmpty

/-- `Node::uct` (mcts2.rs:167-174).  `f64::INFINITY` is `⊤ : EReal`; for
`parent_visits ≥ 1` and `visits ≥ 1` — the only regime any theorem below uses —
the real-valued formula agrees with the `f64` computation up to rounding. -/
noncomputable def Node.uct {S : Type} (n : Node S) (parent_visits : ℚ) : EReal :=
  if n.visits = 0 then ⊤
  else (((((n.reward / n.visits : ℚ) : ℝ)
          + Real.sqrt (2 * Real.log ((parent_visits : ℚ) : ℝ) / ((n.visits : ℚ) : ℝ))) : ℝ) : EReal)

/-- `Mcts::best_child` (mcts2.rs:121-131): arg-max of `uct` over the node's
children; `none` models the panics (`unwrap` on an empty children list, or an
out-of-range child index). -/
noncomputable def best_child {S : Type} (ns : List (Node S)) (node_idx : Nat) : Option Nat :=
  match ns.get? node_idx with
  | none => none
  | some node =>
      match node.children.mapM (fun i => (ns.get? i).map fun n => (i, n.uct node.visits)) with
      | none => none
      | some pairs =>
          match rustMaxBy (fun p => p.2) pairs with
          | none => none
          | some p => some p.1

/-- `Mcts::select` (mcts2.rs:39-51), with fuel for the unbounded `loop`
(`none` = fuel exhausted or panic; in a well-formed arena the descent strictly
increases the index, so fuel `ns.length + 1` always suffices). -/
noncomputable def select {S : Type} (G : GameI S) (ns : List (Node S)) :
    Nat → Nat → Option Nat
  | 0, _ => none
  | fuel+1, idx =>
      match ns.get? idx with
      | none => none
      | some node =>
          if node.is_terminal G then some idx
          else if node.is_fully_expanded then
            match best_child ns idx with
            | none => none
            | some c => select G ns fuel c
          else some idx

/-- `Mcts::expand` (mcts2.rs:54-75): pop the last untried action, step a clone
of the state (`unwrap` on failure = `none`), append the child, link it. -/
def expand {S : Type} (G : GameI S) (ns : List (Node S)) (node_idx : Nat) :
    Option (List (Node S) × Nat) :=
  match ns.get? node_idx with
  | none => none
  | some node =>
      if node.is_terminal G then some (ns, node_idx)
      else
        match node.untried_actions.getLast? with
        | none => some (ns, node_idx)
        | some action =>
            match G.step node.state action with
            | .error _ => none
            | .ok st =>
                let child := Node.new G (some node_idx) st (some action)
                let child_idx := ns.length
                let node' := { node with
                               untried_actions := node.untried_actions.dropLast,
                               children := node.children ++ [child_idx] }
                some (ns.set node_idx node' ++ [child], child_idx)

/-- The `loop` of `Mcts::simulate` (mcts2.rs:77-87): play the random action
`actions[fastrand::usize(..len)]` until `result` is `Some`; the draw stream
models fastrand's process-wide generator, `pos` its cursor.  `none` = fuel
exhausted (a non-terminating game) or a panic (`fastrand::usize(..0)` /
indexing on an empty action list, or `step(..).unwrap()`). -/
def simLoop {S : Type} (G : GameI S) (stream : Nat → Nat) :
    Nat → S → Nat → Option (GameResult × Nat)
  | 0, _, _ => none
  | fuel+1, st, pos =>
      match G.result st with
      | some r => some (r, pos)
      | none =>
          let actions := G.allowed_actions st
          if actions.isEmpty then none
          else
            match G.step st (actions.getD (stream pos % actions.length) 0) with
            | .error _ => none
            | .ok st' => simLoop G stream fuel st' (pos+1)

/-- `Mcts::simulate`: clone the node's state and run the playout loop. -/
def simulate {S : Type} (G : GameI S) (ns : List (Node S)) (node_idx : Nat)
    (stream : Nat → Nat) (fuel pos : Nat) : Option (GameResult × Nat) :=
  match ns.get? node_idx with
  | none => none
  | some node => simLoop G stream fuel node.state pos

/-- The per-node reward increment of `Mcts::backup` (mcts2.rs:94-105): the
actor credited at a node is the opponent of the player to move in that node's
own state. -/
def backupIncr {S : Type} (G : GameI S) (n : Node S) (result : GameResult) : ℚ :=
  match result with
  | .Win winner => if winner = (G.current_player n.state).opponent then 1 else 0
  | .Draw => 1/2

/-- `Mcts::backup` (mcts2.rs:89-108): the `while let Some(idx) = current` walk
up the parent chain, bumping `visits` and `reward`; fuel models the unbounded
loop (`ns.length` always suffices in a well-formed arena). -/
def backup {S : Type} (G : GameI S) (result : GameResult) :
    Nat → List (Node S) → Option Nat → Option (List (Node S))
  | _, ns, none => some ns
  | 0, _, some _ => none
  | fuel+1, ns, some idx =>
      match ns.get? idx with
      | none => none
      | some node =>
          backup G result fuel
            (ns.set idx { node with visits := node.visits + 1,
                                    reward := node.reward + backupIncr G node result })
            node.parent

/-- `Mcts::best_action` (mcts2.rs:110-118): `max_by` over the root's children
by `visits`, then **`.unwrap()`** — so an empty children list is a panic
(`none`), not a `None` return. -/
def best_action {S : Type} (ns : List (Node S)) : Option (Option Action) :=
  match ns.get? 0 with
  | none => none
  | some root =>
      match root.children.mapM (fun i => ns.get? i) with
      | none => none
      | some childNodes =>
          match rustMaxBy (fun n : Node S => n.visits) childNodes with
          | none => none
          | some n => some n.action

/-- One iteration of the `for _ in 0..self.num_iters` loop of `Mcts::search`
(mcts2.rs:23-28): select, expand, simulate, backup. -/
noncomputable def iter {S : Type} (G : GameI S) (stream : Nat → Nat) (simFuel : Nat)
    (ns : List (Node S)) (pos : Nat) : Option (List (Node S) × Nat) :=
  match select G ns (ns.length + 1) 0 with
  | none => none
  | some i1 =>
      match expand G ns i1 with
      | none => none
      | some (ns1, i2) =>
          match simulate G ns1 i2 stream simFuel pos with
          | none => none
          | some (res, pos') =>
              match backup G res ns1.length ns1 (some i2) with
              | none => none
              | some ns2 => some (ns2, pos')

/-- The iteration loop of `Mcts::search`. -/
noncomputable def searchLoop {S : Type} (G : GameI S) (stream : Nat → Nat) (simFuel : Nat) :
    Nat → List (Node S) → Nat → Option (List (Node S) × Nat)
  | 0, ns, pos => some (ns, pos)
  | n+1, ns, pos =>
      match iter G stream simFuel ns pos with
      | none => none
      | some (ns', pos') => searchLoop G stream simFuel n ns' pos'

/-- `Mcts::search` (mcts2.rs:19-31): clear the arena, push a fresh root, run
`num_iters` iterations, extract the best action.  Result `none` is a panic of
the engine; `some a` is the `Option<Action>` the Rust function returns. -/
noncomputable def search {S : Type} (G : GameI S) (stream : Nat → Nat) (simFuel : Nat)
    (num_iters : Nat) (state : S) : Option (Option Action) :=
  let ns0 := [Node.new G none state none]
  match searchLoop G stream simFuel num_iters ns0 0 with
  | none => none
  | some (ns, _) => best_action ns

end Mcts2

/-! ## `src/mcts.rs`: the TicTacToe-specific engine

mcts.rs calls its state through `legal_moves`/`make_move`/`is_terminal`/
`result`/`current_player`; under src/ the `TicTacToe` in game.rs exposes that
interface as `allowed_actions`/`step`/`is_terminal`/`result`/`current_player`,
which is what the embedding uses. -/

namespace Mcts1

/-- `struct Node` (mcts.rs:163-172): `visits: u32` is `ℕ`, `wins: f64` is `ℚ`. -/
structure Node where
  state : TicTacToe
  parent : Option Nat
  children : List Nat
  action : Option Nat
  visits : Nat
  wins : ℚ
  untried_actions : List Nat

/-- `Node::new` (mcts.rs:175-186). -/
def Node.new (state : TicTacToe) (parent : Option Nat) (action : Option Nat) : Node :=
  { state := state, parent := parent, children := [], action := action,
    visits := 0, wins := 0, untried_actions := state.allowed_actions }

/-- The reward mcts.rs's `backpropagate` (mcts.rs:122-146) adds at node `idx`:
`none` models the `parent.unwrap()` / indexing panics.  At the root (`idx == 0`)
the credited player is `root_player` itself; at any other node it is the
current player of the **parent's** state. -/
def backpropIncr (ns : List Node) (idx : Nat) (node : Node)
    (result : Option GameResult) (root_player : Player) : Option ℚ :=
  match result with
  | some (GameResult.Win winner) =>
      if idx = 0 then some (if winner = root_player then 1 else 0)
      else
        match node.parent with
        | none => none
        | some p =>
            match ns.get? p with
            | none => none
            | some pn => some (if winner = pn.state.current_player then 1 else 0)
  | some GameResult.Draw => some (1/2)
  | none => some 0

/-- `Mcts::backpropagate` (mcts.rs:122-146), fueled like `Mcts2.backup`. -/
def backpropagate (result : Option GameResult) (root_player : Player) :
    Nat → List Node → Option Nat → Option (List Node)
  | _, ns, none => some ns
  | 0, _, some _ => none
  | fuel+1, ns, some idx =>
      match ns.get? idx with
      | none => none
      | some node =>
          match backpropIncr ns idx node result root_player with
          | none => none
          | some reward =>
              backpropagate result root_player fuel
                (ns.set idx { node with visits := node.visits + 1,
                                        wins := node.wins + reward })
                node.parent

/-- `Node::ucb1` (mcts.rs:196-204): `f64::INFINITY` at zero visits, else
`wins/visits + exploration * sqrt(ln(parent_visits)/visits)`; modelled over
`EReal` like `Mcts2.Node.uct`. -/
noncomputable def Node.ucb1 (n : Node) (parent_visits : Nat) (exploration : ℝ) : EReal :=
  if n.visits = 0 then ⊤
  else (((((n.wins : ℝ) / (n.visits : ℝ))
          + exploration * Real.sqrt (Real.log (parent_visits : ℝ) / (n.visits : ℝ))) : ℝ) : EReal)

/-- `Mcts::best_action` (mcts.rs:148-160): returns `None` **normally** when the
node has no children (no `unwrap` on the empty case, unlike mcts2.rs). -/
def best_action (ns : List Node) (node_idx : Nat) : Option (Option Nat) :=
  match ns.get? node_idx with
  | none => none
  | some node =>
      if node.children.isEmpty then some none
      else
        match node.children.mapM (fun i => (ns.get? i).map fun n => (i, n.visits)) with
        | none => none
        | some pairs =>
            match rustMaxBy (fun p => p.2) pairs with
            | none => none
            | some p =>
                match ns.get? p.1 with
                | none => none
                | some best => some best.action

end Mcts1

/-! ## Spec-modelled reward backpropagation (claim C4)

src/main.rs drives `Tetris` through an engine constructed as `Mcts::new(10_000)`
whose `search` takes one argument, and tetris.rs produces the `End(f64)`
outcome and implements `current_reward` — but neither that engine version nor
the `GameResult` carrying `End` is among the files under src/ (game.rs has only
`Win | Draw`, and mcts2.rs's `backup` matches only those two variants).  The
missing reward-handling backpropagation is therefore modelled from the spec. -/

/-- Modelled from the spec: the full Game Capability Contract of §4.1 including
the optional `currentReward(state) -> Scalar` capability and the `Outcome` sum
of §3 with its `End(reward)` variant; the corresponding trait version is not
under src/. -/
structure GameSpec (S : Type) where
  result : S → Option Outcome
  allowed_actions : S → List Action
  current_player : S → Player
  step : S → Action → Except String S
  current_reward : S → ℚ

namespace SpecEngine

/-- Modelled from the spec (§4.3 step 4): the per-node reward increment of the
missing reward-aware backpropagation.  `Win(winner)`: 1.0 iff `winner` equals
the player-to-move at the node's parent (for the root: the opponent of the root
state's current player); `Draw`: 0.5; `End(reward)`: `reward - initialReward`.
`none` models an unreadable parent index. -/
def incr {S : Type} (G : GameSpec S) (ns : List (Mcts2.Node S)) (node : Mcts2.Node S)
    (outcome : Outcome) (initialReward : ℚ) : Option ℚ :=
  match outcome with
  | .Win winner =>
      match node.parent with
      | some p =>
          (ns.get? p).map fun pn => if winner = G.current_player pn.state then 1 else 0
      | none => some (if winner = (G.current_player node.state).opponent then 1 else 0)
  | .Draw => some (1/2)
  | .End r => some (r - initialReward)

/-- Modelled from the spec (§4.3 step 4): walk from the expanded node up the
`parent` links to the root, incrementing `visits` by 1 and `reward` by the
per-variant increment, fueled like `Mcts2.backup`. -/
def backprop {S : Type} (G : GameSpec S) (outcome : Outcome) (initialReward : ℚ) :
    Nat → List (Mcts2.Node S) → Option Nat → Option (List (Mcts2.Node S))
  | _, ns, none => some ns
  | 0, _, some _ => none
  | fuel+1, ns, some idx =>
      match ns.get? idx with
      | none => none
      | some node =>
          match incr G ns node outcome initialReward with
          | none => none
          | some q =>
              backprop G outcome initialReward fuel
                (ns.set idx { node with visits := node.visits + 1,
                                        reward := node.reward + q })
                node.parent

/-- Modelled from the spec (§4.3): the backpropagation stage of one iteration,
with `initialReward = currentReward(rootState)` captured once at the start of
the iteration, before selection (selection/expansion/simulation never modify
an existing node's state, so the root state read here is the one that was
current at the iteration's start); `node_idx` is the node the iteration
expanded and simulated from, `outcome` the simulation's result. -/
def iterationBackprop {S : Type} (G : GameSpec S) (ns : List (Mcts2.Node S))
    (node_idx : Nat) (outcome : Outcome) : Option (List (Mcts2.Node S)) :=
  match ns.get? 0 with
  | none => none
  | some root =>
      let initialReward := G.current_reward root.state
      backprop G outcome initialReward ns.length ns (some node_idx)

end SpecEngine

/-- The §4.1 contract instantiated at TicTacToe: `Win`/`Draw` results embed
into `Outcome`, and the optional `currentReward` capability takes its default
value 0 (§4.1: "two-player win/draw games may omit it or return 0 always"). -/
def gameSpecTicTacToe : GameSpec TicTacToe :=
  { result := fun s => (TicTacToe.result s).map fun r =>
      match r with
      | .Win p => Outcome.Win p
      | .Draw => Outcome.Draw
    allowed_actions := TicTacToe.allowed_actions
    current_player := TicTacToe.current_player
    step := TicTacToe.step
    current_reward := fun _ => 0 }

/-! ## Arena well-formedness (the implicit invariant of claims C7/C9) -/

namespace Mcts2

/-- Parent-link well-formedness of a node arena: non-empty, the parent link of
node `i` is `none` exactly when `i = 0`, and otherwise points strictly below
`i`. -/
def WFp {S : Type} (ns : List (Node S)) : Prop :=
  ns ≠ [] ∧
  ∀ i n, ns.get? i = some n →
    (∀ p ∈ n.parent, p < i) ∧ (n.parent = none ↔ i = 0)

/-- Full structural well-formedness: parent links as in `WFp`, and every
child list is duplicate-free, points past its parent and into the arena, at
nodes whose parent link points back. -/
def WF {S : Type} (ns : List (Node S)) : Prop :=
  WFp ns ∧
  ∀ i n, ns.get? i = some n →
    n.children.Nodup ∧
    ∀ c ∈ n.children, i < c ∧ c < ns.length ∧
      ∀ cn, ns.get? c = some cn → cn.parent = some i

/-- The visit count recorded at arena slot `c` (0 for an absent slot). -/
def visitsAt {S : Type} (ns : List (Node S)) (c : Nat) : ℚ :=
  ((ns.get? c).map Node.visits).getD 0

/-- The root's child list (empty for an empty arena). -/
def rootChildren {S : Type} (ns : List (Node S)) : List Nat :=
  ((ns.get? 0).map Node.children).getD []

/-- Sum of the visit counts over a list of arena slots. -/
def childSum {S : Type} (ns : List (Node S)) (l : List Nat) : ℚ :=
  (l.map (visitsAt ns)).sum

end Mcts2

namespace Mcts1

/-- Parent-link well-formedness for mcts.rs arenas (as `Mcts2.WFp`). -/
def WFp (ns : List Node) : Prop :=
  ns ≠ [] ∧
  ∀ i n, ns.get? i = some n →
    (∀ p ∈ n.parent, p < i) ∧ (n.parent = none ↔ i = 0)

end Mcts1

/-! ## Reachability of game states through the public stepping interface -/

namespace TicTacToe

/-- Apply a list of actions through `step`, failing if any application errors. -/
def applySteps (s : TicTacToe) : List Action → Option TicTacToe
  | [] => some s
  | a :: rest =>
      match step s a with
      | .ok s' => applySteps s' rest
      | .error _ => none

/-- A TicTacToe state is reachable when some action sequence produces it from
`Default::default()` with every `step` succeeding. -/
def Reachable (s : TicTacToe) : Prop :=
  ∃ acts : List Action, applySteps init acts = some s

end TicTacToe

namespace Connect4

/-- Apply a list of actions through `step`, failing if any application errors. -/
def applySteps (s : Connect4) : List Action → Option Connect4
  | [] => some s
  | a :: rest =>
      match step s a with
      | .ok s' => applySteps s' rest
      | .error _ => none

/-- A Connect4 state is reachable when some action sequence produces it from
`Default::default()` with every `step` succeeding. -/
def Reachable (s : Connect4) : Prop :=
  ∃ acts : List Action, applySteps init acts = some s

end Connect4

/-! ## Concrete fixtures for witnesses and counterexamples -/

/-- The all-zeros draw stream (one possible behaviour of the modelled
process-wide random sources). -/
def zeroStream : Nat → Nat := fun _ => 0

/-- A finished TicTacToe game: X plays 0, 1, 2 (top row) against O's 3, 4 —
a reachable terminal state with `result = Some(Win(X))`. -/
def tttWonX : TicTacToe :=
  (TicTacToe.applySteps TicTacToe.init [0, 3, 1, 4, 2]).getD TicTacToe.init

/-- `Tetris::new` under the all-zeros entropy stream. -/
def tetrisInit : Tetris := Tetris.new zeroStream

/-- The Tetris state after stepping `HardDrop` (action 5) six times from
`Tetris::new` under the all-zeros stream: the sixth placement leaves the spawn
cells blocked, so the post-step state has `is_terminal = true`. -/
def tetrisTerminal : Tetris :=
  (Tetris.applySteps (Tetris.new zeroStream) (List.replicate 6 5)).getD (Tetris.new zeroStream)

/-- The Tetris state `<Tetris as Game>::step` produces from `tetrisInit` on the
out-of-range action 7 (which `From<u8>` maps to `NoOp`). -/
def tetrisAfter7 : Tetris :=
  match Tetris.stepG tetrisInit 7 with
  | some (.ok s) => s
  | _ => tetrisInit

/-- A two-node mcts2.rs arena: the root (TicTacToe start state) and one child
reached by action 0, as `expand` would build it. -/
def arenaPair2 : List (Mcts2.Node TicTacToe) :=
  [ { state := TicTacToe.init, parent := none, children := [1], action := none,
      visits := 1, reward := 0, untried_actions := [] },
    { state := (TicTacToe.step TicTacToe.init 0).toOption.getD TicTacToe.init,
      parent := some 0, children := [], action := some 0,
      visits := 0, reward := 0, untried_actions := [] } ]

/-- The matching two-node mcts.rs arena. -/
def arenaPair1 : List Mcts1.Node :=
  [ { state := TicTacToe.init, parent := none, children := [1], action := none,
      visits := 1, wins := 0, untried_actions := [] },
    { state := (TicTacToe.step TicTacToe.init 0).toOption.getD TicTacToe.init,
      parent := some 0, children := [], action := some 0,
      visits := 0, wins := 0, untried_actions := [] } ]

/-- A fresh single-root mcts2.rs arena over the TicTacToe start state. -/
def arenaRoot2 : List (Mcts2.Node TicTacToe) :=
  [Mcts2.Node.new tictactoeGame none TicTacToe.init none]

/-- Two iterations of the mcts2.rs search loop on a fresh TicTacToe root,
under the all-zeros draw stream with playout fuel 20. -/
noncomputable def c7run : Option (List (Mcts2.Node TicTacToe) × Nat) :=
  Mcts2.searchLoop tictactoeGame zeroStream 20 2 arenaRoot2 0

/-- The arena/cursor pair `c7run` produces. -/
noncomputable def c7out : List (Mcts2.Node TicTacToe) × Nat := c7run.getD ([], 0)

/-- The state `TicTacToe::step` produces from the start state on action 4. -/
def tttAfter4 : TicTacToe :=
  (TicTacToe.step TicTacToe.init 4).toOption.getD TicTacToe.init

/-- A concrete mcts2.rs backpropagation run: outcome `Win(X)`, starting at the
child node of `arenaPair2`. -/
def c2run2 : Option (List (Mcts2.Node TicTacToe)) :=
  Mcts2.backup tictactoeGame (GameResult.Win Player.X) 2 arenaPair2 (some 1)

/-- The arena `c2run2` produces. -/
def c2out2 : List (Mcts2.Node TicTacToe) := c2run2.getD []

/-- The matching mcts.rs backpropagation run on `arenaPair1`
(`root_player = X`, as `search` captures it on the start state). -/
def c2run1 : Option (List Mcts1.Node) :=
  Mcts1.backpropagate (some (GameResult.Win Player.X)) Player.X 2 arenaPair1 (some 1)

/-- The arena `c2run1` produces. -/
def c2out1 : List Mcts1.Node := c2run1.getD []

/-- A concrete spec-modelled reward backpropagation: outcome `End(3)` from the
child node of `arenaPair2` under the TicTacToe contract (whose `currentReward`
is constantly 0). -/
def c4run : Option (List (Mcts2.Node TicTacToe)) :=
  SpecEngine.iterationBackprop gameSpecTicTacToe arenaPair2 1 (Outcome.End 3)

/-- The arena `c4run` produces. -/
def c4out : List (Mcts2.Node TicTacToe) := c4run.getD []

/-- The root node record of `arenaPair2`. -/
def rootPair2 : Mcts2.Node TicTacToe :=
  (arenaPair2.get? 0).getD (Mcts2.Node.new tictactoeGame none TicTacToe.init none)

/-- A zero-visit mcts2.rs node fixture (large accumulated reward). -/
def node2Fresh : Mcts2.Node TicTacToe :=
  { state := TicTacToe.init, parent := some 0, children := [], action := some 0,
    visits := 0, reward := 5, untried_actions := [] }

/-- A visited mcts2.rs node fixture (even larger accumulated reward). -/
def node2Seen : Mcts2.Node TicTacToe :=
  { state := TicTacToe.init, parent := some 0, children := [], action := some 1,
    visits := 3, reward := 100, untried_actions := [] }

/-- A zero-visit mcts.rs node fixture. -/
def node1Fresh : Mcts1.Node :=
  { state := TicTacToe.init, parent := some 0, children := [], action := some 0,
    visits := 0, wins := 5, untried_actions := [] }

/-- A visited mcts.rs node fixture. -/
def node1Seen : Mcts1.Node :=
  { state := TicTacToe.init, parent := some 0, children := [], action := some 1,
    visits := 3, wins := 100, untried_actions := [] }

/-!
# Theorems
-/

/-! ## Claim C10 — frame property of `TicTacToe::step` -/

/-- **C10.** Whenever `TicTacToe::step(action)` succeeds, exactly the cell at
index `action` changes, going from `Empty` to `Occupied` by the pre-step
current player; every other cell is unchanged, and the current player becomes
the opponent of the pre-step current player.  (`s.board.length = 9` is the
`[Cell; 9]` type invariant every Rust `TicTacToe` value carries.) -/
theorem tictactoe_step_frame (s : TicTacToe) (a : Action) (s' : TicTacToe)
    (hlen : s.board.length = 9) (h : TicTacToe.step s a = .ok s') :
    s.board[a]? = some Cell.Empty ∧
    s'.board[a]? = some (Cell.Occupied s.current_player) ∧
    (∀ i, i ≠ a → s'.board[i]? = s.board[i]?) ∧
    s'.current_player = s.current_player.opponent := by
  unfold TicTacToe.step TicTacToe.stepMut at h
  split at h
  case h_2 e s2 heq => exact absurd h (by simp)
  case h_1 u s2 heq =>
    split at heq
    case isTrue => exact absurd heq (by simp)
    case isFalse h1 =>
      split at heq
      case isTrue => exact absurd heq (by simp)
      case isFalse h2 =>
        split at heq
        case isTrue => exact absurd heq (by simp)
        case isFalse h3 =>
          rw [Prod.mk.injEq] at heq
          obtain ⟨-, rfl⟩ := heq
          obtain rfl : _ = s' := Except.ok.inj h
          have ha : a < s.board.length := by
            rw [hlen]; exact Nat.lt_of_not_le h1
          have h2' : s.board.getD a Cell.Empty = Cell.Empty := not_not.mp h2
          rw [List.getD_eq_getElem?_getD, List.getElem?_eq_getElem ha,
              Option.getD_some] at h2'
          refine ⟨?_, ?_, ?_, rfl⟩
          · rw [List.getElem?_eq_getElem ha]
            exact congrArg some h2'
          · exact List.getElem?_set_self (by simpa using ha)
          · intro i hi
            exact List.getElem?_set_ne (Ne.symm hi)

/-- Witness for C10 at the start state and action 4. -/
theorem tictactoe_step_frame_witness :
    TicTacToe.init.board.length = 9 ∧
    TicTacToe.step TicTacToe.init 4 = .ok tttAfter4 ∧
    (TicTacToe.init.board[(4 : Nat)]? = some Cell.Empty ∧
     tttAfter4.board[(4 : Nat)]? = some (Cell.Occupied TicTacToe.init.current_player) ∧
     (∀ i, i ≠ 4 → tttAfter4.board[i]? = TicTacToe.init.board[i]?) ∧
     tttAfter4.current_player = TicTacToe.init.current_player.opponent) :=
  ⟨by decide, rfl,
   tictactoe_step_frame TicTacToe.init 4 tttAfter4 (by decide) rfl⟩

/-! ## Claim C8 — zero-visit nodes score `+infinity` under UCT/UCB1 -/

/-- **C8.** A node with zero visits scores `+infinity` (`⊤`), and therefore has
strictly higher selection priority than any sibling with at least one visit,
regardless of either sibling's accumulated reward; a visited sibling's score is
finite whenever the parent has at least one visit.  Stated for both
`Mcts2.Node.uct` and mcts.rs's `Node.ucb1`. -/
theorem uct_zero_visits_sup {S : Type} (n m : Mcts2.Node S) (pv : ℚ)
    (n1 m1 : Mcts1.Node) (pv1 : Nat) (c : ℝ)
    (hn : n.visits = 0) (hm : 1 ≤ m.visits) (_hpv : 1 ≤ pv)
    (hn1 : n1.visits = 0) (hm1 : 1 ≤ m1.visits) (_hpv1 : 1 ≤ pv1) :
    n.uct pv = ⊤ ∧ m.uct pv < ⊤ ∧ m.uct pv < n.uct pv ∧
    n1.ucb1 pv1 c = ⊤ ∧ m1.ucb1 pv1 c < ⊤ ∧ m1.ucb1 pv1 c < n1.ucb1 pv1 c := by
  have hm0 : ¬ m.visits = 0 := by
    intro h0; rw [h0] at hm; norm_num at hm
  have hm10 : ¬ m1.visits = 0 := by omega
  refine ⟨by simp [Mcts2.Node.uct, hn], ?_, ?_, by simp [Mcts1.Node.ucb1, hn1], ?_, ?_⟩
  · simp only [Mcts2.Node.uct, hm0, if_false]
    exact EReal.coe_lt_top _
  · simp only [Mcts2.Node.uct, hn, hm0, if_true, if_false, ite_true, ite_false]
    exact EReal.coe_lt_top _
  · simp only [Mcts1.Node.ucb1, hm10, if_false]
    exact EReal.coe_lt_top _
  · simp only [Mcts1.Node.ucb1, hn1, hm10, if_true, if_false, ite_true, ite_false]
    exact EReal.coe_lt_top _

/-- **C1 (bug evaluation).** mcts2.rs's `best_action` calls
`.max_by(..).unwrap()` on the root's child list, so `search` **panics**
(modelled `none`) instead of returning `None` when the root has no children:
with zero iterations on the start state, and with five iterations on a
terminal root.  mcts.rs's `best_action` handles the same case and returns
`None` normally (`some none`). -/
theorem mcts2_search_panics_on_childless_root :
    Mcts2.search tictactoeGame zeroStream 20 0 TicTacToe.init = none ∧
    Mcts2.search tictactoeGame zeroStream 20 5 tttWonX = none ∧
    Mcts1.best_action [Mcts1.Node.new tttWonX none none] 0 = some none := by
  refine ⟨rfl, rfl, rfl⟩

/-- **C2 (counterexample).** One backpropagation pass of mcts.rs on a
single-node arena: the root state is the start state (current player `X`,
`root_player = X` as `search` captures it), the simulation outcome is
`Win(O)`.  `O` **is** the opponent of the root state's current player, so the
claim requires a root increment of 1.0 — but `backpropagate` leaves the root's
`wins` at 0 because it credits `root_player` itself, not the opponent. -/
theorem mcts1_root_credit_counterexample :
    (Mcts1.backpropagate (some (GameResult.Win Player.O)) Player.X 1
        [Mcts1.Node.new TicTacToe.init none none] (some 0)).map (List.map Mcts1.Node.wins)
      = some [0] ∧
    (TicTacToe.current_player TicTacToe.init).opponent = Player.O := by
  refine ⟨?_, rfl⟩
  norm_num [Mcts1.backpropagate, Mcts1.backpropIncr, Mcts1.Node.new,
    show ¬ Player.O = Player.X from fun h => Player.noConfusion h]

/-- **C5 (counterexample).** At the (reachable) freshly-created Tetris state,
action 7 is not a legal action (`allowed_actions` only ever lists 0–6), yet
`<Tetris as Game>::step` returns `Ok(())` — it maps the value through
`From<u8>` to `NoOp` and never errors — contradicting "step returns an error
iff the action is not currently legal or the state is terminal". -/
theorem tetris_step_no_error_counterexample :
    Tetris.Reachable tetrisInit ∧
    (7 : Action) ∉ tetrisInit.allowed_actions ∧
    Tetris.stepG tetrisInit 7 = some (.ok tetrisAfter7) :=
  ⟨⟨zeroStream, [], rfl⟩, by decide, rfl⟩

/-- **C6 (counterexample).** A reachable terminal Tetris state (six hard drops
under the all-zeros entropy stream leave the spawn cells blocked, setting
`is_terminal`) whose `allowed_actions` is nonetheless non-empty —
contradicting "allowedActions returns an empty sequence iff the state is
terminal". -/
theorem tetris_terminal_allowed_actions_counterexample :
    Tetris.Reachable tetrisTerminal ∧
    (Tetris.result tetrisTerminal).isSome = true ∧
    tetrisTerminal.allowed_actions ≠ [] :=
  ⟨⟨zeroStream, List.replicate 6 5, rfl⟩, by decide, by decide⟩

/-! ## List-indexing bridges (thin wrappers over the core `set`/`get?` facts) -/

theorem arenaGet_set_self {α : Type*} (ns : List α) (i : Nat) (x : α) (h : i < ns.length) :
    (ns.set i x).get? i = some x := by
  rw [List.get?_eq_getElem?]
  exact List.getElem?_set_self (by simpa using h)

theorem arenaGet_set_ne {α : Type*} (ns : List α) {i j : Nat} (x : α) (h : i ≠ j) :
    (ns.set i x).get? j = ns.get? j := by
  rw [List.get?_eq_getElem?, List.get?_eq_getElem?]
  exact List.getElem?_set_ne h

theorem arenaGet_lt {α : Type*} {ns : List α} {i : Nat} {x : α} (h : ns.get? i = some x) :
    i < ns.length := by
  rw [List.get?_eq_getElem?] at h
  exact (List.getElem?_eq_some_iff.mp h).1

theorem arenaGet_of_lt {α : Type*} {ns : List α} {i : Nat} (h : i < ns.length) :
    ∃ x, ns.get? i = some x := by
  rw [List.get?_eq_getElem?]
  exact ⟨ns[i], List.getElem?_eq_getElem h⟩

/-! ## Arena machinery for the mcts2.rs engine -/

/-- A well-formed arena is non-empty. -/
theorem wfp_length_pos {S : Type} {ns : List (Mcts2.Node S)} (h : Mcts2.WFp ns) :
    0 < ns.length :=
  List.length_pos.mpr h.1

/-- `WFp` depends only on the parent links: replacing a node by one with the
same parent preserves it. -/
theorem wfp_set {S : Type} {ns : List (Mcts2.Node S)} {idx : Nat}
    {node node' : Mcts2.Node S} (h : Mcts2.WFp ns) (hn : ns.get? idx = some node)
    (hp : node'.parent = node.parent) : Mcts2.WFp (ns.set idx node') := by
  refine ⟨by simpa [← List.length_pos] using wfp_length_pos h, ?_⟩
  intro i m hm
  by_cases hij : idx = i
  · subst hij
    rw [arenaGet_set_self ns idx node' (arenaGet_lt hn)] at hm
    obtain rfl : node' = m := by injection hm
    rw [hp]
    exact (h.2 idx node hn)
  · rw [arenaGet_set_ne ns node' hij] at hm
    exact h.2 i m hm

/-- `Mcts2.backup` preserves the arena length. -/
theorem backup_length {S : Type} (G : GameI S) (res : GameResult) :
    ∀ (fuel : Nat) (cur : Option Nat) (ns ns' : List (Mcts2.Node S)),
      Mcts2.backup G res fuel ns cur = some ns' → ns'.length = ns.length := by
  intro fuel
  induction fuel with
  | zero =>
    intro cur ns ns' h
    cases cur with
    | none =>
        simp only [Mcts2.backup] at h
        injection h with h
        rw [← h]
    | some idx => simp [Mcts2.backup] at h
  | succ f ih =>
    intro cur ns ns' h
    cases cur with
    | none =>
        simp only [Mcts2.backup] at h
        injection h with h
        rw [← h]
    | some idx =>
        simp only [Mcts2.backup] at h
        cases hg : ns.get? idx with
        | none => rw [hg] at h; exact absurd h (by simp)
        | some node =>
            rw [hg] at h
            have := ih node.parent _ _ h
            simpa using this

/-- The per-node effect of one `Mcts2.backup` pass started at `idx` over a
parent-well-formed arena: every node keeps its shape (state, links, action,
untried actions); each node is either bumped exactly once — `visits + 1`,
`reward + backupIncr` — or untouched; every node above `idx` is untouched; and
the start node and the root are both bumped. -/
theorem backup_effect {S : Type} (G : GameI S) (res : GameResult) :
    ∀ (fuel : Nat) (ns : List (Mcts2.Node S)) (idx : Nat) (ns' : List (Mcts2.Node S)),
      Mcts2.WFp ns → Mcts2.backup G res fuel ns (some idx) = some ns' →
      ∀ j n, ns.get? j = some n →
        ∃ n', ns'.get? j = some n' ∧
          n'.state = n.state ∧ n'.parent = n.parent ∧ n'.children = n.children ∧
          n'.action = n.action ∧ n'.untried_actions = n.untried_actions ∧
          ((n'.visits = n.visits + 1 ∧ n'.reward = n.reward + Mcts2.backupIncr G n res) ∨
            (n'.visits = n.visits ∧ n'.reward = n.reward)) ∧
          (idx < j → n'.visits = n.visits ∧ n'.reward = n.reward) ∧
          ((j = idx ∨ j = 0) →
            n'.visits = n.visits + 1 ∧ n'.reward = n.reward + Mcts2.backupIncr G n res) := by
  intro fuel
  induction fuel with
  | zero =>
      intro ns idx ns' _ h
      simp [Mcts2.backup] at h
  | succ f ih =>
      intro ns idx ns' hwf h
      simp only [Mcts2.backup] at h
      cases hg : ns.get? idx with
      | none => rw [hg] at h; exact absurd h (by simp)
      | some node =>
          rw [hg] at h
          dsimp only at h
          set B : Mcts2.Node S :=
            { node with visits := node.visits + 1,
                        reward := node.reward + Mcts2.backupIncr G node res } with hB
          have hidx : idx < ns.length := arenaGet_lt hg
          have hset : (ns.set idx B).get? idx = some B := arenaGet_set_self _ _ _ hidx
          have hwf1 : Mcts2.WFp (ns.set idx B) := wfp_set hwf hg rfl
          cases hpar : node.parent with
          | none =>
              have hidx0 : idx = 0 := ((hwf.2 idx node hg).2).mp hpar
              rw [hpar] at h
              simp only [Mcts2.backup] at h
              injection h with h
              subst h
              intro j n hj
              by_cases hji : j = idx
              · subst hji
                obtain rfl : node = n := by rw [hg] at hj; injection hj
                refine ⟨B, hset, rfl, rfl, rfl, rfl, rfl, Or.inl ⟨rfl, rfl⟩,
                  fun hlt => absurd hlt (lt_irrefl _), fun _ => ⟨rfl, rfl⟩⟩
              · refine ⟨n, by rw [arenaGet_set_ne ns B (fun hh => hji hh.symm)]; exact hj,
                  rfl, rfl, rfl, rfl, rfl, Or.inr ⟨rfl, rfl⟩, fun _ => ⟨rfl, rfl⟩, ?_⟩
                rintro (rfl | rfl)
                · exact absurd rfl hji
                · exact absurd hidx0.symm hji
          | some p =>
              have hplt : p < idx := (hwf.2 idx node hg).1 p (by rw [hpar]; rfl)
              rw [hpar] at h
              have IH := ih (ns.set idx B) p ns' hwf1 h
              intro j n hj
              by_cases hji : j = idx
              · subst hji
                obtain rfl : node = n := by rw [hg] at hj; injection hj
                obtain ⟨n', hn', hs, hp', hch, hact, hunt, _, habove, _⟩ := IH j B hset
                have huntch := habove hplt
                refine ⟨n', hn', by rw [hs], by rw [hp'], by rw [hch], by rw [hact],
                  by rw [hunt], Or.inl ⟨by rw [huntch.1], by rw [huntch.2]⟩,
                  fun hlt => absurd hlt (lt_irrefl _),
                  fun _ => ⟨by rw [huntch.1], by rw [huntch.2]⟩⟩
              · have hj1 : (ns.set idx B).get? j = some n := by
                  rw [arenaGet_set_ne ns B (fun hh => hji hh.symm)]; exact hj
                obtain ⟨n', hn', hs, hp', hch, hact, hunt, hdisj, habove, hbump⟩ := IH j n hj1
                refine ⟨n', hn', hs, hp', hch, hact, hunt, hdisj,
                  fun hlt => habove (lt_trans hplt hlt), ?_⟩
                rintro (rfl | rfl)
                · exact absurd rfl hji
                · exact hbump (Or.inr rfl)

/-- `WFp` transfers along any parent-preserving, length-preserving
reindexing. -/
theorem wfp_congr {S : Type} {ns ns' : List (Mcts2.Node S)}
    (hlen : ns'.length = ns.length)
    (hsh : ∀ j n, ns.get? j = some n → ∃ n', ns'.get? j = some n' ∧ n'.parent = n.parent)
    (h : Mcts2.WFp ns) : Mcts2.WFp ns' := by
  refine ⟨by rw [← List.length_pos, hlen, List.length_pos]; exact h.1, ?_⟩
  intro i m hm
  have hi : i < ns.length := by rw [← hlen]; exact arenaGet_lt hm
  obtain ⟨n, hn⟩ := arenaGet_of_lt hi
  obtain ⟨n', hn', hp⟩ := hsh i n hn
  obtain rfl : m = n' := by rw [hm] at hn'; injection hn'
  rw [hp]
  exact h.2 i n hn

/-- `WF` transfers along any parent- and children-preserving,
length-preserving reindexing. -/
theorem wf_congr {S : Type} {ns ns' : List (Mcts2.Node S)}
    (hlen : ns'.length = ns.length)
    (hsh : ∀ j n, ns.get? j = some n →
      ∃ n', ns'.get? j = some n' ∧ n'.parent = n.parent ∧ n'.children = n.children)
    (h : Mcts2.WF ns) : Mcts2.WF ns' := by
  refine ⟨wfp_congr hlen (fun j n hj => ?_) h.1, ?_⟩
  · obtain ⟨n', hn', hp, _⟩ := hsh j n hj
    exact ⟨n', hn', hp⟩
  · intro i m hm
    have hi : i < ns.length := by rw [← hlen]; exact arenaGet_lt hm
    obtain ⟨n, hn⟩ := arenaGet_of_lt hi
    obtain ⟨n', hn', _, hch⟩ := hsh i n hn
    obtain rfl : m = n' := by rw [hm] at hn'; injection hn'
    rw [hch]
    obtain ⟨hnd, hc⟩ := h.2 i n hn
    refine ⟨hnd, fun c hcmem => ?_⟩
    obtain ⟨hic, hclen, hback⟩ := hc c hcmem
    refine ⟨hic, by rw [hlen]; exact hclen, fun cn hcn => ?_⟩
    obtain ⟨cc, hcc⟩ := arenaGet_of_lt hclen
    obtain ⟨cc', hcc', hccp, _⟩ := hsh c cc hcc
    obtain rfl : cn = cc' := by rw [hcn] at hcc'; injection hcc'
    rw [hccp]
    exact hback cc hcc

/-- Replacing a node by one with the same parent and children preserves
`WF`. -/
theorem wf_set {S : Type} {ns : List (Mcts2.Node S)} {idx : Nat}
    {node node' : Mcts2.Node S} (h : Mcts2.WF ns) (hn : ns.get? idx = some node)
    (hp : node'.parent = node.parent) (hch : node'.children = node.children) :
    Mcts2.WF (ns.set idx node') := by
  refine wf_congr (by simp) (fun j m hm => ?_) h
  by_cases hji : j = idx
  · subst hji
    obtain rfl : node = m := by rw [hn] at hm; injection hm
    exact ⟨node', arenaGet_set_self _ _ _ (arenaGet_lt hn), hp, hch⟩
  · exact ⟨m, by rw [arenaGet_set_ne ns node' (fun hh => hji hh.symm)]; exact hm, rfl, rfl⟩

/-- Over a parent-well-formed arena, `Mcts2.backup` from any valid index
terminates (succeeds) whenever the fuel exceeds the index — the parent chain
strictly decreases. -/
theorem backup_success {S : Type} (G : GameI S) (res : GameResult) :
    ∀ (fuel : Nat) (ns : List (Mcts2.Node S)) (idx : Nat),
      Mcts2.WFp ns → idx < ns.length → idx < fuel →
      ∃ ns', Mcts2.backup G res fuel ns (some idx) = some ns' := by
  intro fuel
  induction fuel with
  | zero => intro ns idx _ _ hf; omega
  | succ f ih =>
      intro ns idx hwf hlt _
      obtain ⟨node, hg⟩ := arenaGet_of_lt hlt
      set B : Mcts2.Node S :=
        { node with visits := node.visits + 1,
                    reward := node.reward + Mcts2.backupIncr G node res } with hB
      have hwf1 : Mcts2.WFp (ns.set idx B) := wfp_set hwf hg rfl
      have heq : Mcts2.backup G res (f+1) ns (some idx)
          = Mcts2.backup G res f (ns.set idx B) node.parent := by
        simp only [Mcts2.backup]
        rw [hg]
      cases hpar : node.parent with
      | none =>
          rw [hpar] at heq
          exact ⟨ns.set idx B, by rw [heq]; simp [Mcts2.backup]⟩
      | some p =>
          have hplt : p < idx := (hwf.2 idx node hg).1 p (by rw [hpar]; rfl)
          obtain ⟨ns', hns'⟩ := ih (ns.set idx B) p hwf1 (by simpa using lt_trans hplt hlt)
            (by omega)
          rw [hpar] at heq
          exact ⟨ns', heq.trans hns'⟩

/-- `childSum` only looks at the listed slots. -/
theorem childSum_congr {S : Type} {ns ns' : List (Mcts2.Node S)} {l : List Nat}
    (h : ∀ c ∈ l, Mcts2.visitsAt ns' c = Mcts2.visitsAt ns c) :
    Mcts2.childSum ns' l = Mcts2.childSum ns l := by
  unfold Mcts2.childSum
  induction l with
  | nil => rfl
  | cons c cs ih =>
      simp only [List.map_cons, List.sum_cons]
      rw [h c (List.mem_cons_self c cs), ih (fun d hd => h d (List.mem_cons_of_mem c hd))]

/-- Effect of a single node replacement on a duplicate-free `childSum`. -/
theorem childSum_set {S : Type} (ns : List (Mcts2.Node S)) (l : List Nat) (idx : Nat)
    (n n' : Mcts2.Node S) (hg : ns.get? idx = some n) (hnd : l.Nodup) :
    Mcts2.childSum (ns.set idx n') l
      = Mcts2.childSum ns l + (if idx ∈ l then n'.visits - n.visits else 0) := by
  induction l with
  | nil => simp [Mcts2.childSum]
  | cons c cs ih =>
      have hnd' : cs.Nodup := hnd.of_cons
      have ihcs := ih hnd'
      by_cases hc : c = idx
      · subst hc
        have hnotin : c ∉ cs := (List.nodup_cons.mp hnd).1
        have hhead : Mcts2.visitsAt (ns.set c n') c = n'.visits := by
          unfold Mcts2.visitsAt
          rw [arenaGet_set_self _ _ _ (arenaGet_lt hg)]
          rfl
        have hold : Mcts2.visitsAt ns c = n.visits := by
          unfold Mcts2.visitsAt; rw [hg]; rfl
        have htail : Mcts2.childSum (ns.set c n') cs = Mcts2.childSum ns cs := by
          rw [ihcs, if_neg hnotin, add_zero]
        simp only [Mcts2.childSum, List.map_cons, List.sum_cons] at *
        rw [hhead, htail, hold, if_pos (List.mem_cons_self c cs)]
        ring
      · have hhead : Mcts2.visitsAt (ns.set idx n') c = Mcts2.visitsAt ns c := by
          unfold Mcts2.visitsAt
          rw [arenaGet_set_ne ns n' (fun hh => hc hh.symm)]
        have hmem : (idx ∈ c :: cs) ↔ (idx ∈ cs) := by
          rw [List.mem_cons]
          exact or_iff_right (fun hh => hc hh.symm)
        simp only [Mcts2.childSum, List.map_cons, List.sum_cons] at *
        rw [hhead, ihcs]
        simp only [hmem]
        ring

/-- The root's child list is untouched by a node replacement away from slot
0, or by one that keeps the children field. -/
theorem rootChildren_set {S : Type} (ns : List (Mcts2.Node S)) (idx : Nat)
    (n' : Mcts2.Node S)
    (h : idx = 0 → ∀ n, ns.get? 0 = some n → n'.children = n.children) :
    Mcts2.rootChildren (ns.set idx n') = Mcts2.rootChildren ns := by
  by_cases h0 : idx = 0
  · subst h0
    unfold Mcts2.rootChildren
    cases hg : ns.get? 0 with
    | none =>
        have : ns.length = 0 := by
          by_contra hne
          obtain ⟨x, hx⟩ := arenaGet_of_lt (Nat.pos_of_ne_zero hne)
          rw [hg] at hx; exact Option.noConfusion hx
        have : ns = [] := List.length_eq_zero.mp this
        subst this
        rfl
    | some n =>
        rw [arenaGet_set_self ns 0 n' (arenaGet_lt hg)]
        simp only [Option.map_some', Option.getD_some]
        exact h rfl n hg
  · unfold Mcts2.rootChildren
    rw [arenaGet_set_ne ns n' h0]

/-- No slot of the root's child list is the root itself, and each is a valid
strictly-positive index (from `WF`). -/
theorem rootChildren_mem {S : Type} {ns : List (Mcts2.Node S)} (hwf : Mcts2.WF ns)
    {c : Nat} (hc : c ∈ Mcts2.rootChildren ns) :
    0 < c ∧ c < ns.length ∧
      ∀ cn, ns.get? c = some cn → cn.parent = some 0 := by
  obtain ⟨node0, hg0⟩ := arenaGet_of_lt (wfp_length_pos hwf.1)
  have hrc : Mcts2.rootChildren ns = node0.children := by
    unfold Mcts2.rootChildren; rw [hg0]; rfl
  rw [hrc] at hc
  exact (hwf.2 0 node0 hg0).2 c hc

/-- The root's child list is duplicate-free (from `WF`). -/
theorem rootChildren_nodup {S : Type} {ns : List (Mcts2.Node S)} (hwf : Mcts2.WF ns) :
    (Mcts2.rootChildren ns).Nodup := by
  obtain ⟨node0, hg0⟩ := arenaGet_of_lt (wfp_length_pos hwf.1)
  have hrc : Mcts2.rootChildren ns = node0.children := by
    unfold Mcts2.rootChildren; rw [hg0]; rfl
  rw [hrc]
  exact (hwf.2 0 node0 hg0).1

/-- One `Mcts2.backup` pass increases the total visit count over the root's
children by at most 1: the walk's parent chain passes through at most one
child of the root. -/
theorem backup_childSum {S : Type} (G : GameI S) (res : GameResult) :
    ∀ (fuel : Nat) (ns : List (Mcts2.Node S)) (idx : Nat) (ns' : List (Mcts2.Node S)),
      Mcts2.WF ns → Mcts2.backup G res fuel ns (some idx) = some ns' →
      Mcts2.childSum ns' (Mcts2.rootChildren ns)
        ≤ Mcts2.childSum ns (Mcts2.rootChildren ns) + 1 := by
  intro fuel
  induction fuel with
  | zero =>
      intro ns idx ns' _ h
      simp [Mcts2.backup] at h
  | succ f ih =>
      intro ns idx ns' hwf h
      simp only [Mcts2.backup] at h
      cases hg : ns.get? idx with
      | none => rw [hg] at h; exact absurd h (by simp)
      | some node =>
          rw [hg] at h
          dsimp only at h
          set B : Mcts2.Node S :=
            { node with visits := node.visits + 1,
                        reward := node.reward + Mcts2.backupIncr G node res } with hB
          have hnd := rootChildren_nodup hwf
          have h0notin : (0 : Nat) ∉ Mcts2.rootChildren ns := fun hmem =>
            absurd (rootChildren_mem hwf hmem).1 (lt_irrefl 0)
          have hstep := childSum_set ns (Mcts2.rootChildren ns) idx node B hg hnd
          have hBv : B.visits - node.visits = 1 := by
            show node.visits + 1 - node.visits = 1; ring
          cases hpar : node.parent with
          | none =>
              have hidx0 : idx = 0 := ((hwf.1.2 idx node hg).2).mp hpar
              rw [hpar] at h
              simp only [Mcts2.backup] at h
              injection h with h
              subst h
              rw [hstep, if_neg (by rw [hidx0]; exact h0notin)]
              linarith
          | some p =>
              have hplt : p < idx := (hwf.1.2 idx node hg).1 p (by rw [hpar]; rfl)
              have hidxne0 : idx ≠ 0 := by
                intro h0
                rw [((hwf.1.2 idx node hg).2).mpr h0] at hpar
                exact Option.noConfusion hpar
              rw [hpar] at h
              have hwf1 : Mcts2.WF (ns.set idx B) := wf_set hwf hg rfl rfl
              have hrc1 : Mcts2.rootChildren (ns.set idx B) = Mcts2.rootChildren ns :=
                rootChildren_set ns idx B (fun h0 => absurd h0 hidxne0)
              by_cases hp0 : p = 0
              · subst hp0
                have heff := backup_effect G res f (ns.set idx B) 0 ns' hwf1.1 h
                have hcong : Mcts2.childSum ns' (Mcts2.rootChildren ns)
                    = Mcts2.childSum (ns.set idx B) (Mcts2.rootChildren ns) := by
                  refine childSum_congr (fun c hc => ?_)
                  obtain ⟨hcpos, hclen, -⟩ := rootChildren_mem hwf hc
                  obtain ⟨nc, hnc⟩ := arenaGet_of_lt (by simpa using hclen :
                    c < (ns.set idx B).length)
                  obtain ⟨n', hn', -, -, -, -, -, -, habove, -⟩ := heff c nc hnc
                  unfold Mcts2.visitsAt
                  rw [hn', hnc]
                  simp [(habove hcpos).1]
                have hif : (if idx ∈ Mcts2.rootChildren ns
                    then B.visits - node.visits else 0) ≤ 1 := by
                  split
                  · exact le_of_eq hBv
                  · norm_num
                rw [hcong, hstep]
                linarith
              · have hnotin : idx ∉ Mcts2.rootChildren ns := by
                  intro hmem
                  have := (rootChildren_mem hwf hmem).2.2 node hg
                  rw [hpar] at this
                  exact hp0 (by injection this)
                have hIH := ih (ns.set idx B) p ns' hwf1 h
                rw [hrc1] at hIH
                rw [hstep, if_neg hnotin] at hIH
                linarith

/-- `Mcts2.select` only ever returns a valid arena index. -/
theorem select_lt {S : Type} (G : GameI S) (ns : List (Mcts2.Node S)) :
    ∀ (fuel idx r : Nat), Mcts2.select G ns fuel idx = some r → r < ns.length := by
  intro fuel
  induction fuel with
  | zero => intro idx r h; simp [Mcts2.select] at h
  | succ f ih =>
      intro idx r h
      simp only [Mcts2.select] at h
      cases hg : ns.get? idx with
      | none => rw [hg] at h; exact absurd h (by simp)
      | some node =>
          rw [hg] at h
          dsimp only at h
          by_cases ht : node.is_terminal G = true
          · rw [if_pos ht] at h
            obtain rfl : idx = r := by injection h
            exact arenaGet_lt hg
          · rw [if_neg ht] at h
            by_cases hf : node.is_fully_expanded = true
            · rw [if_pos hf] at h
              cases hbc : Mcts2.best_child ns idx with
              | none => rw [hbc] at h; exact absurd h (by simp)
              | some c =>
                  rw [hbc] at h
                  exact ih c r h
            · rw [if_neg hf] at h
              obtain rfl : idx = r := by injection h
              exact arenaGet_lt hg

/-- Indexing into the arena `expand` builds: old slots read through the
single-node replacement, the appended slot holds the child. -/
theorem expandGet_lt {S : Type} (ns : List (Mcts2.Node S)) (i : Nat)
    (node' child : Mcts2.Node S) {j : Nat} (hj : j < ns.length) :
    ((ns.set i node') ++ [child]).get? j = (ns.set i node').get? j := by
  rw [List.get?_eq_getElem?, List.get?_eq_getElem?]
  exact List.getElem?_append_left (by simpa using hj)

/-- The appended slot of the arena `expand` builds. -/
theorem expandGet_last {S : Type} (ns : List (Mcts2.Node S)) (i : Nat)
    (node' child : Mcts2.Node S) :
    ((ns.set i node') ++ [child]).get? ns.length = some child := by
  rw [List.get?_eq_getElem?]
  have : ns.length = (ns.set i node').length := by simp
  rw [this]
  exact List.getElem?_concat_length _ _

/-- The effect of `Mcts2.expand` on a well-formed arena: well-formedness is
preserved, the returned index is valid, the root's visit count and the total
visit count over the root's children are unchanged (a fresh child starts at
zero visits). -/
theorem expand_effect {S : Type} (G : GameI S) {ns ns1 : List (Mcts2.Node S)}
    {i i2 : Nat} (hwf : Mcts2.WF ns) (h : Mcts2.expand G ns i = some (ns1, i2)) :
    Mcts2.WF ns1 ∧ i2 < ns1.length ∧ ns.length ≤ ns1.length ∧
    Mcts2.visitsAt ns1 0 = Mcts2.visitsAt ns 0 ∧
    Mcts2.childSum ns1 (Mcts2.rootChildren ns1)
      = Mcts2.childSum ns (Mcts2.rootChildren ns) := by
  simp only [Mcts2.expand] at h
  cases hg : ns.get? i with
  | none => rw [hg] at h; exact absurd h (by simp)
  | some node =>
      rw [hg] at h
      dsimp only at h
      by_cases ht : Mcts2.Node.is_terminal G node = true
      · rw [if_pos ht] at h
        obtain ⟨rfl, rfl⟩ : ns = ns1 ∧ i = i2 := by
          injection h with h; injection h with h1 h2; exact ⟨h1, h2⟩
        exact ⟨hwf, arenaGet_lt hg, le_refl _, rfl, rfl⟩
      · rw [if_neg ht] at h
        cases hlast : node.untried_actions.getLast? with
        | none =>
            rw [hlast] at h
            obtain ⟨rfl, rfl⟩ : ns = ns1 ∧ i = i2 := by
              injection h with h; injection h with h1 h2; exact ⟨h1, h2⟩
            exact ⟨hwf, arenaGet_lt hg, le_refl _, rfl, rfl⟩
        | some action =>
            rw [hlast] at h
            dsimp only at h
            cases hstep : G.step node.state action with
            | error e => rw [hstep] at h; exact absurd h (by simp)
            | ok st =>
                rw [hstep] at h
                dsimp only at h
                injection h with h
                injection h with h1 h2
                set child : Mcts2.Node S := Mcts2.Node.new G (some i) st (some action)
                  with hchild
                set node' : Mcts2.Node S :=
                  { node with untried_actions := node.untried_actions.dropLast,
                              children := node.children ++ [ns.length] } with hn'
                have hilt : i < ns.length := arenaGet_lt hg
                have hlen1 : ns1.length = ns.length + 1 := by
                  rw [← h1]; simp
                subst h2
                have hget_old : ∀ j, j < ns.length → ns1.get? j = (ns.set i node').get? j := by
                  intro j hj; rw [← h1]; exact expandGet_lt ns i node' child hj
                have hget_new : ns1.get? ns.length = some child := by
                  rw [← h1]; exact expandGet_last ns i node' child
                have hchildpar : child.parent = some i := rfl
                have hchildvis : child.visits = 0 := rfl
                have hchildch : child.children = [] := rfl
                refine ⟨⟨⟨?_, ?_⟩, ?_⟩, ?_, ?_, ?_, ?_⟩
                · -- ns1 ≠ []
                  intro hnil
                  rw [hnil] at hlen1
                  simp at hlen1
                · -- parent links
                  intro j m hm
                  have hjlt : j < ns.length + 1 := by rw [← hlen1]; exact arenaGet_lt hm
                  rcases Nat.lt_or_ge j ns.length with hj | hj
                  · rw [hget_old j hj] at hm
                    by_cases hji : i = j
                    · subst hji
                      rw [arenaGet_set_self ns i node' hilt] at hm
                      obtain rfl : node' = m := by injection hm
                      exact (hwf.1.2 i node hg)
                    · rw [arenaGet_set_ne ns node' hji] at hm
                      exact hwf.1.2 j m hm
                  · obtain rfl : j = ns.length := by omega
                    rw [hget_new] at hm
                    obtain rfl : child = m := by injection hm
                    constructor
                    · intro p hp
                      rw [hchildpar] at hp
                      obtain rfl : i = p := by injection hp
                      exact hilt
                    · rw [hchildpar]
                      constructor
                      · intro hh; exact Option.noConfusion hh
                      · intro hh
                        rw [hh] at hj
                        exact absurd (wfp_length_pos hwf.1) (by omega)
                · -- children sanity
                  intro j m hm
                  have hjlt : j < ns.length + 1 := by rw [← hlen1]; exact arenaGet_lt hm
                  rcases Nat.lt_or_ge j ns.length with hj | hj
                  · rw [hget_old j hj] at hm
                    by_cases hji : i = j
                    · subst hji
                      rw [arenaGet_set_self ns i node' hilt] at hm
                      obtain rfl : node' = m := by injection hm
                      obtain ⟨hnd, hcl⟩ := hwf.2 i node hg
                      have hch' : node'.children = node.children ++ [ns.length] := rfl
                      rw [hch']
                      constructor
                      · rw [List.nodup_append]
                        refine ⟨hnd, List.nodup_singleton _, ?_⟩
                        intro c hc hcmem
                        have := (hcl c hc).2.1
                        simp at hcmem
                        omega
                      · intro c hc
                        rw [List.mem_append] at hc
                        rcases hc with hc | hc
                        · obtain ⟨hic, hclen, hback⟩ := hcl c hc
                          refine ⟨hic, by omega, fun cn hcn => ?_⟩
                          rw [hget_old c hclen] at hcn
                          by_cases hci : i = c
                          · omega
                          · rw [arenaGet_set_ne ns node' hci] at hcn
                            exact hback cn hcn
                        · simp at hc
                          subst hc
                          refine ⟨hilt, by omega, fun cn hcn => ?_⟩
                          rw [hget_new] at hcn
                          obtain rfl : child = cn := by injection hcn
                          exact hchildpar
                    · rw [arenaGet_set_ne ns node' hji] at hm
                      obtain ⟨hnd, hcl⟩ := hwf.2 j m hm
                      refine ⟨hnd, fun c hc => ?_⟩
                      obtain ⟨hjc, hclen, hback⟩ := hcl c hc
                      refine ⟨hjc, by omega, fun cn hcn => ?_⟩
                      rw [hget_old c hclen] at hcn
                      by_cases hci : i = c
                      · subst hci
                        rw [arenaGet_set_self ns i node' hilt] at hcn
                        obtain rfl : node' = cn := by injection hcn
                        exact hback node hg
                      · rw [arenaGet_set_ne ns node' hci] at hcn
                        exact hback cn hcn
                  · obtain rfl : j = ns.length := by omega
                    rw [hget_new] at hm
                    obtain rfl : child = m := by injection hm
                    rw [hchildch]
                    exact ⟨List.nodup_nil, fun c hc => absurd hc (List.not_mem_nil c)⟩
                · -- i2 < ns1.length
                  omega
                · -- length grows
                  omega
                · -- root visits preserved
                  have h0 : (0 : Nat) < ns.length := wfp_length_pos hwf.1
                  unfold Mcts2.visitsAt
                  rw [hget_old 0 h0]
                  by_cases hi0 : i = 0
                  · subst hi0
                    rw [arenaGet_set_self ns 0 node' hilt, hg]
                    rfl
                  · rw [arenaGet_set_ne ns node' hi0]
                · -- child-visit sum over the root's children preserved
                  have h0 : (0 : Nat) < ns.length := wfp_length_pos hwf.1
                  obtain ⟨node0, hg0⟩ := arenaGet_of_lt h0
                  have hrc : Mcts2.rootChildren ns = node0.children := by
                    unfold Mcts2.rootChildren; rw [hg0]; rfl
                  by_cases hi0 : i = 0
                  · subst hi0
                    obtain rfl : node = node0 := by rw [hg] at hg0; injection hg0
                    have hrc1 : Mcts2.rootChildren ns1 = node.children ++ [ns.length] := by
                      unfold Mcts2.rootChildren
                      rw [hget_old 0 h0, arenaGet_set_self ns 0 node' hilt]
                      rfl
                    rw [hrc1, hrc]
                    unfold Mcts2.childSum
                    rw [List.map_append, List.sum_append]
                    have hnewv : Mcts2.visitsAt ns1 ns.length = 0 := by
                      unfold Mcts2.visitsAt; rw [hget_new]; rfl
                    have holdv : ∀ c ∈ node.children, Mcts2.visitsAt ns1 c
                        = Mcts2.visitsAt ns c := by
                      intro c hc
                      obtain ⟨hic, hclen, -⟩ := (hwf.2 0 node hg).2 c hc
                      unfold Mcts2.visitsAt
                      rw [hget_old c hclen, arenaGet_set_ne ns node' (by omega)]
                    rw [List.map_congr_left holdv]
                    simp [hnewv]
                  · have hrc1 : Mcts2.rootChildren ns1 = node0.children := by
                      unfold Mcts2.rootChildren
                      rw [hget_old 0 h0, arenaGet_set_ne ns node' hi0, hg0]
                      rfl
                    rw [hrc1, hrc]
                    refine childSum_congr (fun c hc => ?_)
                    obtain ⟨hic, hclen, -⟩ := (hwf.2 0 node0 hg0).2 c hc
                    unfold Mcts2.visitsAt
                    rw [hget_old c hclen]
                    by_cases hci : i = c
                    · subst hci
                      rw [arenaGet_set_self ns i node' hilt, hg]
                      rfl
                    · rw [arenaGet_set_ne ns node' hci]

/-- One full mcts2.rs iteration (select–expand–simulate–backup) preserves
well-formedness, increments the root's visit count by exactly one, and
increases the total visit count over the root's children by at most one. -/
theorem iter_effect {S : Type} (G : GameI S) (stream : Nat → Nat) (simFuel : Nat)
    {ns ns2 : List (Mcts2.Node S)} {pos pos2 : Nat} (hwf : Mcts2.WF ns)
    (h : Mcts2.iter G stream simFuel ns pos = some (ns2, pos2)) :
    Mcts2.WF ns2 ∧
    Mcts2.visitsAt ns2 0 = Mcts2.visitsAt ns 0 + 1 ∧
    Mcts2.childSum ns2 (Mcts2.rootChildren ns2)
      ≤ Mcts2.childSum ns (Mcts2.rootChildren ns) + 1 := by
  simp only [Mcts2.iter] at h
  cases hsel : Mcts2.select G ns (ns.length + 1) 0 with
  | none => rw [hsel] at h; exact absurd h (by simp)
  | some i1 =>
      rw [hsel] at h
      dsimp only at h
      cases hexp : Mcts2.expand G ns i1 with
      | none => rw [hexp] at h; exact absurd h (by simp)
      | some out1 =>
          obtain ⟨ns1, i2⟩ := out1
          rw [hexp] at h
          dsimp only at h
          obtain ⟨hwf1, hi2, hlen1, hvis1, hsum1⟩ := expand_effect G hwf hexp
          cases hsim : Mcts2.simulate G ns1 i2 stream simFuel pos with
          | none => rw [hsim] at h; exact absurd h (by simp)
          | some rp =>
              obtain ⟨res, pos'⟩ := rp
              rw [hsim] at h
              dsimp only at h
              cases hbk : Mcts2.backup G res ns1.length ns1 (some i2) with
              | none => rw [hbk] at h; exact absurd h (by simp)
              | some nsf =>
                  rw [hbk] at h
                  dsimp only at h
                  obtain ⟨rfl, rfl⟩ : nsf = ns2 ∧ pos' = pos2 := by
                    injection h with h; injection h with ha hb; exact ⟨ha, hb⟩
                  have heff := backup_effect G res ns1.length ns1 i2 nsf hwf1.1 hbk
                  have hlen2 := backup_length G res ns1.length (some i2) ns1 nsf hbk
                  have hwf2 : Mcts2.WF nsf := by
                    refine wf_congr hlen2 (fun j n hj => ?_) hwf1
                    obtain ⟨n', hn', -, hp, hc, -, -, -, -, -⟩ := heff j n hj
                    exact ⟨n', hn', hp, hc⟩
                  have h0 : (0 : Nat) < ns1.length := wfp_length_pos hwf1.1
                  obtain ⟨n0, hg0⟩ := arenaGet_of_lt h0
                  obtain ⟨n0', hn0', -, -, hch0, -, -, -, -, hbump⟩ := heff 0 n0 hg0
                  have hvis2 : Mcts2.visitsAt nsf 0 = Mcts2.visitsAt ns1 0 + 1 := by
                    unfold Mcts2.visitsAt
                    rw [hn0', hg0]
                    simp [(hbump (Or.inr rfl)).1]
                  have hrc2 : Mcts2.rootChildren nsf = Mcts2.rootChildren ns1 := by
                    unfold Mcts2.rootChildren
                    rw [hn0', hg0, Option.map_some', Option.map_some', hch0]
                  have hsum2 := backup_childSum G res ns1.length ns1 i2 nsf hwf1 hbk
                  refine ⟨hwf2, by rw [hvis2, hvis1], ?_⟩
                  rw [hrc2]
                  calc Mcts2.childSum nsf (Mcts2.rootChildren ns1)
                      ≤ Mcts2.childSum ns1 (Mcts2.rootChildren ns1) + 1 := hsum2
                    _ = Mcts2.childSum ns (Mcts2.rootChildren ns) + 1 := by rw [hsum1]

/-- Running `n` iterations of the mcts2.rs search loop over a well-formed
arena preserves well-formedness, adds exactly `n` to the root's visit count,
and at most `n` to the total visit count over the root's children. -/
theorem searchLoop_effect {S : Type} (G : GameI S) (stream : Nat → Nat) (simFuel : Nat) :
    ∀ (n : Nat) (ns : List (Mcts2.Node S)) (pos : Nat)
      (out : List (Mcts2.Node S) × Nat),
      Mcts2.WF ns → Mcts2.searchLoop G stream simFuel n ns pos = some out →
      Mcts2.WF out.1 ∧
      Mcts2.visitsAt out.1 0 = Mcts2.visitsAt ns 0 + (n : ℚ) ∧
      Mcts2.childSum out.1 (Mcts2.rootChildren out.1)
        ≤ Mcts2.childSum ns (Mcts2.rootChildren ns) + (n : ℚ) := by
  intro n
  induction n with
  | zero =>
      intro ns pos out hwf h
      simp only [Mcts2.searchLoop] at h
      obtain rfl : (ns, pos) = out := by injection h
      exact ⟨hwf, by norm_num, by norm_num⟩
  | succ k ih =>
      intro ns pos out hwf h
      simp only [Mcts2.searchLoop] at h
      cases hit : Mcts2.iter G stream simFuel ns pos with
      | none => rw [hit] at h; exact absurd h (by simp)
      | some np =>
          obtain ⟨ns', pos'⟩ := np
          rw [hit] at h
          dsimp only at h
          obtain ⟨hwf', hvis', hsum'⟩ := iter_effect G stream simFuel hwf hit
          obtain ⟨hwfo, hviso, hsumo⟩ := ih ns' pos' out hwf' h
          refine ⟨hwfo, ?_, ?_⟩
          · rw [hviso, hvis']
            push_cast
            ring
          · calc Mcts2.childSum out.1 (Mcts2.rootChildren out.1)
                ≤ Mcts2.childSum ns' (Mcts2.rootChildren ns') + (k : ℚ) := hsumo
              _ ≤ (Mcts2.childSum ns (Mcts2.rootChildren ns) + 1) + (k : ℚ) := by
                  linarith
              _ = Mcts2.childSum ns (Mcts2.rootChildren ns) + ((k : ℚ) + 1) := by ring
              _ = Mcts2.childSum ns (Mcts2.rootChildren ns) + ((k + 1 : Nat) : ℚ) := by
                  push_cast; ring

/-- The fresh single-root arena `search` builds is well-formed, with zero root
visits and no root children. -/
theorem wf_singleton {S : Type} (G : GameI S) (s : S) :
    Mcts2.WF [Mcts2.Node.new G none s none] ∧
    Mcts2.visitsAt [Mcts2.Node.new G none s none] 0 = 0 ∧
    Mcts2.rootChildren [Mcts2.Node.new G none s none] = [] := by
  refine ⟨⟨⟨by simp, ?_⟩, ?_⟩, rfl, rfl⟩
  · intro i n hn
    match i, hn with
    | 0, hn =>
        obtain rfl : Mcts2.Node.new G none s none = n := by injection hn
        exact ⟨fun p hp => Option.noConfusion hp, by simp [Mcts2.Node.new]⟩
  · intro i n hn
    match i, hn with
    | 0, hn =>
        obtain rfl : Mcts2.Node.new G none s none = n := by injection hn
        exact ⟨List.nodup_nil, fun c hc => absurd hc (List.not_mem_nil c)⟩

/-! ## Claim C7 — node accounting: root visits = N, child visits sum ≤ N -/

/-- **C7.** For every game, random stream, playout fuel, start state and
iteration count `N`: if the mcts2.rs search loop completes its `N` iterations
(producing arena `out.1`), the root's visit count equals `N` — each
iteration's backpropagation walks the parent chain to the root and increments
it exactly once — and the visit counts of the root's immediate children sum
to at most `N`. -/
theorem search_node_accounting {S : Type} (G : GameI S) (stream : Nat → Nat)
    (simFuel N : Nat) (state : S) (out : List (Mcts2.Node S) × Nat)
    (h : Mcts2.searchLoop G stream simFuel N [Mcts2.Node.new G none state none] 0
          = some out) :
    Mcts2.visitsAt out.1 0 = (N : ℚ) ∧
    Mcts2.childSum out.1 (Mcts2.rootChildren out.1) ≤ (N : ℚ) := by
  obtain ⟨hwf0, hv0, hrc0⟩ := wf_singleton G state
  obtain ⟨-, hv, hs⟩ := searchLoop_effect G stream simFuel N _ 0 out hwf0 h
  constructor
  · rw [hv, hv0]; ring
  · have : Mcts2.childSum [Mcts2.Node.new G none state none]
        (Mcts2.rootChildren [Mcts2.Node.new G none state none]) = 0 := by
      rw [hrc0]; rfl
    rw [this] at hs
    linarith [hs]

/-- Witness for C7: two iterations on a fresh TicTacToe root under the
all-zeros draw stream. -/
theorem search_node_accounting_witness :
    Mcts2.searchLoop tictactoeGame zeroStream 20 2 arenaRoot2 0 = some c7out ∧
    (Mcts2.visitsAt c7out.1 0 = (2 : ℚ) ∧
     Mcts2.childSum c7out.1 (Mcts2.rootChildren c7out.1) ≤ (2 : ℚ)) :=
  ⟨rfl, search_node_accounting tictactoeGame zeroStream 20 2 TicTacToe.init c7out rfl⟩

/-! ## Claim C9 — arena index well-formedness and backprop termination -/

/-- **C9.** Throughout any mcts2.rs search call: the fresh arena is
well-formed and each iteration preserves well-formedness; under
well-formedness node 0 is the root with `parent = None` and every other
node's parent index is strictly smaller than its own index; consequently the
backpropagation walk from any valid node terminates (fuel `idx + 1`
suffices), reaching and incrementing the root. -/
theorem arena_wf_backprop_reaches_root {S : Type} (G : GameI S) (stream : Nat → Nat)
    (simFuel : Nat) :
    (∀ s : S, Mcts2.WF [Mcts2.Node.new G none s none]) ∧
    (∀ (ns ns2 : List (Mcts2.Node S)) (pos pos2 : Nat),
      Mcts2.WF ns → Mcts2.iter G stream simFuel ns pos = some (ns2, pos2) →
      Mcts2.WF ns2) ∧
    (∀ (ns : List (Mcts2.Node S)) (n : Mcts2.Node S),
      Mcts2.WF ns → ns.get? 0 = some n → n.parent = none) ∧
    (∀ (ns : List (Mcts2.Node S)) (i : Nat) (n : Mcts2.Node S) (p : Nat),
      Mcts2.WF ns → ns.get? i = some n → n.parent = some p → p < i) ∧
    (∀ (ns : List (Mcts2.Node S)) (idx : Nat) (res : GameResult),
      Mcts2.WF ns → idx < ns.length →
      ∃ ns', Mcts2.backup G res (idx + 1) ns (some idx) = some ns' ∧
        Mcts2.visitsAt ns' 0 = Mcts2.visitsAt ns 0 + 1) := by
  refine ⟨fun s => (wf_singleton G s).1, ?_, ?_, ?_, ?_⟩
  · intro ns ns2 pos pos2 hwf hit
    exact (iter_effect G stream simFuel hwf hit).1
  · intro ns n hwf hn
    exact ((hwf.1.2 0 n hn).2).mpr rfl
  · intro ns i n p hwf hn hp
    exact (hwf.1.2 i n hn).1 p (by rw [hp]; rfl)
  · intro ns idx res hwf hlt
    obtain ⟨ns', hns'⟩ := backup_success G res (idx + 1) ns idx hwf.1 hlt (by omega)
    refine ⟨ns', hns', ?_⟩
    have heff := backup_effect G res (idx + 1) ns idx ns' hwf.1 hns'
    obtain ⟨n0, hg0⟩ := arenaGet_of_lt (wfp_length_pos hwf.1)
    obtain ⟨n0', hn0', -, -, -, -, -, -, -, hbump⟩ := heff 0 n0 hg0
    unfold Mcts2.visitsAt
    rw [hn0', hg0]
    simp [(hbump (Or.inr rfl)).1]

/-- Witness for C9: the single-root TicTacToe arena, and a terminating
backpropagation from index 0 that bumps the root. -/
theorem arena_wf_backprop_reaches_root_witness :
    Mcts2.WF arenaRoot2 ∧
    (∃ ns', Mcts2.backup tictactoeGame GameResult.Draw 1 arenaRoot2 (some 0) = some ns' ∧
      Mcts2.visitsAt ns' 0 = Mcts2.visitsAt arenaRoot2 0 + 1) :=
  ⟨(arena_wf_backprop_reaches_root tictactoeGame zeroStream 20).1 TicTacToe.init,
   (arena_wf_backprop_reaches_root tictactoeGame zeroStream 20).2.2.2.2 arenaRoot2 0
     GameResult.Draw
     ((arena_wf_backprop_reaches_root tictactoeGame zeroStream 20).1 TicTacToe.init)
     (by decide)⟩

/-- A two-node root/child arena is parent-well-formed (mcts2.rs). -/
theorem wfp_pair2_holds : Mcts2.WFp arenaPair2 := by
  refine ⟨by simp [arenaPair2], ?_⟩
  intro i n hn
  match i, hn with
  | 0, hn =>
      obtain rfl : _ = n := by injection hn
      exact ⟨fun p hp => Option.noConfusion hp, by simp [arenaPair2]⟩
  | 1, hn =>
      obtain rfl : _ = n := by injection hn
      refine ⟨fun p hp => ?_, by simp [arenaPair2]⟩
      obtain rfl : (0 : Nat) = p := by injection hp
      omega

/-- A two-node root/child arena is parent-well-formed (mcts.rs). -/
theorem wfp_pair1_holds : Mcts1.WFp arenaPair1 := by
  refine ⟨by simp [arenaPair1], ?_⟩
  intro i n hn
  match i, hn with
  | 0, hn =>
      obtain rfl : _ = n := by injection hn
      exact ⟨fun p hp => Option.noConfusion hp, by simp [arenaPair1]⟩
  | 1, hn =>
      obtain rfl : _ = n := by injection hn
      refine ⟨fun p hp => ?_, by simp [arenaPair1]⟩
      obtain rfl : (0 : Nat) = p := by injection hp
      omega

/-- mcts.rs's per-node reward only reads game states, which a visits/wins bump
never changes. -/
theorem backpropIncr_set {ns : List Mcts1.Node} {idx : Nat} {node B : Mcts1.Node}
    (hg : ns.get? idx = some node) (hB : B.state = node.state) (j : Nat) (n : Mcts1.Node)
    (res : Option GameResult) (rp : Player) :
    Mcts1.backpropIncr (ns.set idx B) j n res rp = Mcts1.backpropIncr ns j n res rp := by
  unfold Mcts1.backpropIncr
  cases res with
  | none => rfl
  | some r =>
      cases r with
      | Draw => rfl
      | Win w =>
          by_cases hj : j = 0
          · simp [hj]
          · simp only [if_neg hj]
            cases hp : n.parent with
            | none => rfl
            | some p =>
                dsimp only
                by_cases hpi : idx = p
                · subst hpi
                  rw [arenaGet_set_self ns idx B (arenaGet_lt hg), hg]
                  dsimp only
                  rw [hB]
                · rw [arenaGet_set_ne ns B hpi]

/-- Under `WFp`, mcts.rs's `backpropIncr` never panics. -/
theorem backpropIncr_total {ns : List Mcts1.Node} (hwf : Mcts1.WFp ns) {j : Nat}
    {n : Mcts1.Node} (hj : ns.get? j = some n) (res : Option GameResult) (rp : Player) :
    ∃ q, Mcts1.backpropIncr ns j n res rp = some q := by
  unfold Mcts1.backpropIncr
  cases res with
  | none => exact ⟨0, rfl⟩
  | some r =>
      cases r with
      | Draw => exact ⟨1/2, rfl⟩
      | Win w =>
          dsimp only
          by_cases hj0 : j = 0
          · rw [if_pos hj0]
            exact ⟨_, rfl⟩
          · rw [if_neg hj0]
            cases hp : n.parent with
            | none => exact absurd (((hwf.2 j n hj).2).mp hp) hj0
            | some p =>
                dsimp only
                have hplt : p < j := (hwf.2 j n hj).1 p (by rw [hp]; rfl)
                have hjlen : j < ns.length := arenaGet_lt hj
                obtain ⟨pn, hpn⟩ := arenaGet_of_lt (show p < ns.length by omega)
                rw [hpn]
                exact ⟨_, rfl⟩

/-- The per-node effect of one mcts.rs `backpropagate` pass from `idx` over a
parent-well-formed arena, mirroring `backup_effect`: shapes are preserved,
each node is bumped at most once by its `backpropIncr` reward, nodes above
`idx` are untouched, the start node and the root are bumped. -/
theorem backprop1_effect (res : Option GameResult) (rp : Player) :
    ∀ (fuel : Nat) (ns : List Mcts1.Node) (idx : Nat) (ns' : List Mcts1.Node),
      Mcts1.WFp ns → Mcts1.backpropagate res rp fuel ns (some idx) = some ns' →
      ∀ j n, ns.get? j = some n →
        ∃ n' q, ns'.get? j = some n' ∧ Mcts1.backpropIncr ns j n res rp = some q ∧
          n'.state = n.state ∧ n'.parent = n.parent ∧ n'.children = n.children ∧
          ((n'.visits = n.visits + 1 ∧ n'.wins = n.wins + q) ∨
            (n'.visits = n.visits ∧ n'.wins = n.wins)) ∧
          (idx < j → n'.visits = n.visits ∧ n'.wins = n.wins) ∧
          ((j = idx ∨ j = 0) → n'.visits = n.visits + 1 ∧ n'.wins = n.wins + q) := by
  intro fuel
  induction fuel with
  | zero =>
      intro ns idx ns' _ h
      simp [Mcts1.backpropagate] at h
  | succ f ih =>
      intro ns idx ns' hwf h
      simp only [Mcts1.backpropagate] at h
      cases hg : ns.get? idx with
      | none => rw [hg] at h; exact absurd h (by simp)
      | some node =>
          rw [hg] at h
          dsimp only at h
          cases hq : Mcts1.backpropIncr ns idx node res rp with
          | none => rw [hq] at h; exact absurd h (by simp)
          | some q0 =>
              rw [hq] at h
              dsimp only at h
              set B : Mcts1.Node :=
                { node with visits := node.visits + 1, wins := node.wins + q0 } with hB
              have hidx : idx < ns.length := arenaGet_lt hg
              have hset : (ns.set idx B).get? idx = some B := arenaGet_set_self _ _ _ hidx
              have hwf1 : Mcts1.WFp (ns.set idx B) := by
                refine ⟨?_, ?_⟩
                · intro hnil
                  have hlen : (ns.set idx B).length = 0 := by rw [hnil]; rfl
                  rw [List.length_set] at hlen
                  omega
                · intro i m hm
                  by_cases hji : idx = i
                  · subst hji
                    rw [hset] at hm
                    obtain rfl : B = m := by injection hm
                    exact hwf.2 idx node hg
                  · rw [arenaGet_set_ne ns B hji] at hm
                    exact hwf.2 i m hm
              have hincrstable : ∀ (j : Nat) (n : Mcts1.Node),
                  Mcts1.backpropIncr (ns.set idx B) j n res rp
                    = Mcts1.backpropIncr ns j n res rp :=
                fun j n => backpropIncr_set (B := B) hg rfl j n res rp
              cases hpar : node.parent with
              | none =>
                  have hidx0 : idx = 0 := ((hwf.2 idx node hg).2).mp hpar
                  rw [hpar] at h
                  simp only [Mcts1.backpropagate] at h
                  injection h with h
                  subst h
                  intro j n hj
                  by_cases hji : j = idx
                  · subst hji
                    obtain rfl : node = n := by rw [hg] at hj; injection hj
                    exact ⟨B, q0, hset, hq, rfl, rfl, rfl, Or.inl ⟨rfl, rfl⟩,
                      fun hlt => absurd hlt (lt_irrefl _), fun _ => ⟨rfl, rfl⟩⟩
                  · have hjset : (ns.set idx B).get? j = some n := by
                      rw [arenaGet_set_ne ns B (fun hh => hji hh.symm)]
                      exact hj
                    obtain ⟨qj, hqj⟩ := backpropIncr_total hwf hj res rp
                    refine ⟨n, qj, hjset, hqj, rfl, rfl, rfl, Or.inr ⟨rfl, rfl⟩,
                      fun _ => ⟨rfl, rfl⟩, ?_⟩
                    rintro (rfl | rfl)
                    · exact absurd rfl hji
                    · exact absurd hidx0.symm hji
              | some p =>
                  have hplt : p < idx := (hwf.2 idx node hg).1 p (by rw [hpar]; rfl)
                  rw [hpar] at h
                  have IH := ih (ns.set idx B) p ns' hwf1 h
                  intro j n hj
                  by_cases hji : j = idx
                  · subst hji
                    obtain rfl : node = n := by rw [hg] at hj; injection hj
                    obtain ⟨n', q', hn', hq', hs, hp', hch, -, habove, -⟩ := IH j B hset
                    have huntch := habove hplt
                    refine ⟨n', q0, hn', hq, by rw [hs], by rw [hp'], by rw [hch],
                      Or.inl ⟨by rw [huntch.1], by rw [huntch.2]⟩,
                      fun hlt => absurd hlt (lt_irrefl _),
                      fun _ => ⟨by rw [huntch.1], by rw [huntch.2]⟩⟩
                  · have hj1 : (ns.set idx B).get? j = some n := by
                      rw [arenaGet_set_ne ns B (fun hh => hji hh.symm)]
                      exact hj
                    obtain ⟨n', q', hn', hq', hs, hp', hch, hdisj, habove, hbump⟩ :=
                      IH j n hj1
                    rw [hincrstable j n] at hq'
                    refine ⟨n', q', hn', hq', hs, hp', hch, hdisj,
                      fun hlt => habove (lt_trans hplt hlt), ?_⟩
                    rintro (rfl | rfl)
                    · exact absurd rfl hji
                    · exact hbump (Or.inr rfl)

/-! ## Claim C2 (amended) — per-node backpropagation credit rules -/

/-- **C2 (amended).** On a successful backpropagation pass over a
parent-well-formed arena: **mcts2.rs** credits every bumped node (root
included) 1.0 iff the winner equals the opponent of that node's own
player-to-move — at the root this is exactly the claim's rule, and at a
non-root node it coincides with "the player-to-move at the node's parent"
whenever the game alternates turns; always-bumped root as in the claim.
**mcts.rs** credits a bumped non-root node 1.0 iff the winner equals the
player-to-move at the node's parent (the claim's rule), but credits the root
1.0 iff the winner equals `root_player` itself — not its opponent, contrary
to the claim. -/
theorem backprop_credit_rules {S : Type} (G : GameI S) (res : GameResult)
    (fuel : Nat) (ns ns' : List (Mcts2.Node S)) (idx : Nat)
    (hwf : Mcts2.WFp ns) (h : Mcts2.backup G res fuel ns (some idx) = some ns')
    (res1 : Option GameResult) (rp : Player) (fuel1 : Nat)
    (ms ms' : List Mcts1.Node) (idx1 : Nat)
    (hwfm : Mcts1.WFp ms)
    (h1 : Mcts1.backpropagate res1 rp fuel1 ms (some idx1) = some ms') :
    (∀ j n n', ns.get? j = some n → ns'.get? j = some n' → n'.visits = n.visits + 1 →
      n'.reward = n.reward + (match res with
        | GameResult.Win w => if w = (G.current_player n.state).opponent then (1 : ℚ) else 0
        | GameResult.Draw => 1/2)) ∧
    (∀ n, ns.get? 0 = some n → ∃ n', ns'.get? 0 = some n' ∧ n'.visits = n.visits + 1) ∧
    (∀ j n n' p pn, ms.get? j = some n → ms'.get? j = some n' →
      n'.visits = n.visits + 1 → n.parent = some p → ms.get? p = some pn →
      n'.wins = n.wins + (match res1 with
        | some (GameResult.Win w) => if w = pn.state.current_player then (1 : ℚ) else 0
        | some GameResult.Draw => 1/2
        | none => 0)) ∧
    (∀ n n', ms.get? 0 = some n → ms'.get? 0 = some n' → n'.visits = n.visits + 1 →
      n'.wins = n.wins + (match res1 with
        | some (GameResult.Win w) => if w = rp then (1 : ℚ) else 0
        | some GameResult.Draw => 1/2
        | none => 0)) := by
  refine ⟨?_, ?_, ?_, ?_⟩
  · intro j n n' hn hn' hv
    obtain ⟨n'', hn'', -, -, -, -, -, hdisj, -, -⟩ :=
      backup_effect G res fuel ns idx ns' hwf h j n hn
    obtain rfl : n' = n'' := by rw [hn'] at hn''; injection hn''
    rcases hdisj with ⟨-, hr⟩ | ⟨hv0, -⟩
    · cases res <;> exact hr
    · rw [hv0] at hv
      exact absurd hv (by intro hc; linarith [hc])
  · intro n hn
    obtain ⟨n', hn', -, -, -, -, -, -, -, hbump⟩ :=
      backup_effect G res fuel ns idx ns' hwf h 0 n hn
    exact ⟨n', hn', (hbump (Or.inr rfl)).1⟩
  · intro j n n' p pn hn hn' hv hp hpn
    obtain ⟨n'', q, hn'', hq, -, -, -, hdisj, -, -⟩ :=
      backprop1_effect res1 rp fuel1 ms idx1 ms' hwfm h1 j n hn
    obtain rfl : n' = n'' := by rw [hn'] at hn''; injection hn''
    have hj0 : j ≠ 0 := by
      intro h0
      rw [((hwfm.2 j n hn).2).mpr h0] at hp
      exact Option.noConfusion hp
    have hbumped : n'.wins = n.wins + q := by
      rcases hdisj with ⟨-, hr⟩ | ⟨hv0, -⟩
      · exact hr
      · rw [hv0] at hv
        omega
    cases res1 with
    | none =>
        have hq0 : q = 0 := by
          unfold Mcts1.backpropIncr at hq
          injection hq with hh
          exact hh.symm
        dsimp only
        rw [hbumped, hq0]
    | some r =>
        cases r with
        | Draw =>
            have hq0 : q = 1/2 := by
              unfold Mcts1.backpropIncr at hq
              injection hq with hh
              exact hh.symm
            dsimp only
            rw [hbumped, hq0]
        | Win w =>
            have hq0 : q = if w = pn.state.current_player then (1 : ℚ) else 0 := by
              unfold Mcts1.backpropIncr at hq
              dsimp only at hq
              rw [if_neg hj0, hp] at hq
              dsimp only at hq
              rw [hpn] at hq
              injection hq with hh
              exact hh.symm
            dsimp only
            rw [hbumped, hq0]
  · intro n n' hn hn' hv
    obtain ⟨n'', q, hn'', hq, -, -, -, -, -, hbump⟩ :=
      backprop1_effect res1 rp fuel1 ms idx1 ms' hwfm h1 0 n hn
    obtain rfl : n' = n'' := by rw [hn'] at hn''; injection hn''
    have hbumped : n'.wins = n.wins + q := (hbump (Or.inr rfl)).2
    cases res1 with
    | none =>
        have hq0 : q = 0 := by
          unfold Mcts1.backpropIncr at hq
          injection hq with hh
          exact hh.symm
        dsimp only
        rw [hbumped, hq0]
    | some r =>
        cases r with
        | Draw =>
            have hq0 : q = 1/2 := by
              unfold Mcts1.backpropIncr at hq
              injection hq with hh
              exact hh.symm
            dsimp only
            rw [hbumped, hq0]
        | Win w =>
            have hq0 : q = if w = rp then (1 : ℚ) else 0 := by
              unfold Mcts1.backpropIncr at hq
              dsimp only at hq
              rw [if_pos rfl] at hq
              injection hq with hh
              exact hh.symm
            dsimp only
            rw [hbumped, hq0]

/-- Witness for C2 on the concrete two-node arenas with outcome `Win(X)` and
`root_player = X`. -/
theorem backprop_credit_rules_witness :
    Mcts2.WFp arenaPair2 ∧ Mcts1.WFp arenaPair1 ∧
    Mcts2.backup tictactoeGame (GameResult.Win Player.X) 2 arenaPair2 (some 1)
      = some c2out2 ∧
    Mcts1.backpropagate (some (GameResult.Win Player.X)) Player.X 2 arenaPair1 (some 1)
      = some c2out1 ∧
    ((∀ j n n', arenaPair2.get? j = some n → c2out2.get? j = some n' →
        n'.visits = n.visits + 1 →
        n'.reward = n.reward + (match GameResult.Win Player.X with
          | GameResult.Win w =>
              if w = (tictactoeGame.current_player n.state).opponent then (1 : ℚ) else 0
          | GameResult.Draw => 1/2)) ∧
     (∀ n, arenaPair2.get? 0 = some n →
        ∃ n', c2out2.get? 0 = some n' ∧ n'.visits = n.visits + 1) ∧
     (∀ j n n' p pn, arenaPair1.get? j = some n → c2out1.get? j = some n' →
        n'.visits = n.visits + 1 → n.parent = some p → arenaPair1.get? p = some pn →
        n'.wins = n.wins + (match some (GameResult.Win Player.X) with
          | some (GameResult.Win w) =>
              if w = pn.state.current_player then (1 : ℚ) else 0
          | some GameResult.Draw => 1/2
          | none => 0)) ∧
     (∀ n n', arenaPair1.get? 0 = some n → c2out1.get? 0 = some n' →
        n'.visits = n.visits + 1 →
        n'.wins = n.wins + (match some (GameResult.Win Player.X) with
          | some (GameResult.Win w) => if w = Player.X then (1 : ℚ) else 0
          | some GameResult.Draw => 1/2
          | none => 0))) :=
  ⟨wfp_pair2_holds, wfp_pair1_holds, rfl, rfl,
   backprop_credit_rules tictactoeGame (GameResult.Win Player.X) 2 arenaPair2 c2out2 1
     wfp_pair2_holds rfl (some (GameResult.Win Player.X)) Player.X 2 arenaPair1 c2out1 1
     wfp_pair1_holds rfl⟩

/-! ## Claim C4 — spec-modelled `End(reward)` backpropagation delta -/

/-- The per-node effect of the spec-modelled backpropagation for an
`End(reward)` outcome, mirroring `backup_effect`: every bumped node gains
exactly `reward - initialReward`. -/
theorem backpropSpec_end_effect {S : Type} (G : GameSpec S) (r ir : ℚ) :
    ∀ (fuel : Nat) (ns : List (Mcts2.Node S)) (idx : Nat) (ns' : List (Mcts2.Node S)),
      Mcts2.WFp ns →
      SpecEngine.backprop G (Outcome.End r) ir fuel ns (some idx) = some ns' →
      ∀ j n, ns.get? j = some n →
        ∃ n', ns'.get? j = some n' ∧
          n'.state = n.state ∧ n'.parent = n.parent ∧ n'.children = n.children ∧
          ((n'.visits = n.visits + 1 ∧ n'.reward = n.reward + (r - ir)) ∨
            (n'.visits = n.visits ∧ n'.reward = n.reward)) ∧
          (idx < j → n'.visits = n.visits ∧ n'.reward = n.reward) ∧
          ((j = idx ∨ j = 0) → n'.visits = n.visits + 1 ∧ n'.reward = n.reward + (r - ir)) := by
  intro fuel
  induction fuel with
  | zero =>
      intro ns idx ns' _ h
      simp [SpecEngine.backprop] at h
  | succ f ih =>
      intro ns idx ns' hwf h
      simp only [SpecEngine.backprop] at h
      cases hg : ns.get? idx with
      | none => rw [hg] at h; exact absurd h (by simp)
      | some node =>
          rw [hg] at h
          dsimp only at h
          rw [show SpecEngine.incr G ns node (Outcome.End r) ir = some (r - ir) from rfl]
            at h
          dsimp only at h
          set B : Mcts2.Node S :=
            { node with visits := node.visits + 1, reward := node.reward + (r - ir) }
            with hB
          have hidx : idx < ns.length := arenaGet_lt hg
          have hset : (ns.set idx B).get? idx = some B := arenaGet_set_self _ _ _ hidx
          have hwf1 : Mcts2.WFp (ns.set idx B) := wfp_set hwf hg rfl
          cases hpar : node.parent with
          | none =>
              have hidx0 : idx = 0 := ((hwf.2 idx node hg).2).mp hpar
              rw [hpar] at h
              simp only [SpecEngine.backprop] at h
              injection h with h
              subst h
              intro j n hj
              by_cases hji : j = idx
              · subst hji
                obtain rfl : node = n := by rw [hg] at hj; injection hj
                exact ⟨B, hset, rfl, rfl, rfl, Or.inl ⟨rfl, rfl⟩,
                  fun hlt => absurd hlt (lt_irrefl _), fun _ => ⟨rfl, rfl⟩⟩
              · refine ⟨n, by rw [arenaGet_set_ne ns B (fun hh => hji hh.symm)]; exact hj,
                  rfl, rfl, rfl, Or.inr ⟨rfl, rfl⟩, fun _ => ⟨rfl, rfl⟩, ?_⟩
                rintro (rfl | rfl)
                · exact absurd rfl hji
                · exact absurd hidx0.symm hji
          | some p =>
              have hplt : p < idx := (hwf.2 idx node hg).1 p (by rw [hpar]; rfl)
              rw [hpar] at h
              have IH := ih (ns.set idx B) p ns' hwf1 h
              intro j n hj
              by_cases hji : j = idx
              · subst hji
                obtain rfl : node = n := by rw [hg] at hj; injection hj
                obtain ⟨n', hn', hs, hp', hch, -, habove, -⟩ := IH j B hset
                have huntch := habove hplt
                refine ⟨n', hn', by rw [hs], by rw [hp'], by rw [hch],
                  Or.inl ⟨by rw [huntch.1], by rw [huntch.2]⟩,
                  fun hlt => absurd hlt (lt_irrefl _),
                  fun _ => ⟨by rw [huntch.1], by rw [huntch.2]⟩⟩
              · have hj1 : (ns.set idx B).get? j = some n := by
                  rw [arenaGet_set_ne ns B (fun hh => hji hh.symm)]; exact hj
                obtain ⟨n', hn', hs, hp', hch, hdisj, habove, hbump⟩ := IH j n hj1
                refine ⟨n', hn', hs, hp', hch, hdisj,
                  fun hlt => habove (lt_trans hplt hlt), ?_⟩
                rintro (rfl | rfl)
                · exact absurd rfl hji
                · exact hbump (Or.inr rfl)

/-- **C4 (spec-modelled).** For every backpropagation pass of the modelled
reward-aware engine whose simulation outcome is `End(reward)`: the reward
increment added at every node the pass bumps equals
`reward - initialReward`, where `initialReward` is the root state's
`currentReward` captured at the start of the iteration before selection; the
root itself is bumped by exactly that delta. -/
theorem spec_end_backprop_delta {S : Type} (G : GameSpec S)
    (ns ns' : List (Mcts2.Node S)) (idx : Nat) (r : ℚ) (root : Mcts2.Node S)
    (hwf : Mcts2.WFp ns) (hroot : ns.get? 0 = some root)
    (h : SpecEngine.iterationBackprop G ns idx (Outcome.End r) = some ns') :
    (∀ j n n', ns.get? j = some n → ns'.get? j = some n' → n'.visits = n.visits + 1 →
      n'.reward = n.reward + (r - G.current_reward root.state)) ∧
    (∃ n', ns'.get? 0 = some n' ∧ n'.visits = root.visits + 1 ∧
      n'.reward = root.reward + (r - G.current_reward root.state)) := by
  unfold SpecEngine.iterationBackprop at h
  rw [hroot] at h
  dsimp only at h
  have heff := backpropSpec_end_effect G r (G.current_reward root.state)
    ns.length ns idx ns' hwf h
  constructor
  · intro j n n' hn hn' hv
    obtain ⟨n'', hn'', -, -, -, hdisj, -, -⟩ := heff j n hn
    obtain rfl : n' = n'' := by rw [hn'] at hn''; injection hn''
    rcases hdisj with ⟨-, hr⟩ | ⟨hv0, -⟩
    · exact hr
    · rw [hv0] at hv
      exact absurd hv (by intro hc; linarith [hc])
  · obtain ⟨n', hn', -, -, -, -, -, hbump⟩ := heff 0 root hroot
    exact ⟨n', hn', (hbump (Or.inr rfl)).1, (hbump (Or.inr rfl)).2⟩

/-- Witness for C4 on the concrete two-node arena under the TicTacToe
contract (constant `currentReward = 0`), outcome `End(3)`. -/
theorem spec_end_backprop_delta_witness :
    Mcts2.WFp arenaPair2 ∧ arenaPair2.get? 0 = some rootPair2 ∧
    SpecEngine.iterationBackprop gameSpecTicTacToe arenaPair2 1 (Outcome.End 3)
      = some c4out ∧
    ((∀ j n n', arenaPair2.get? j = some n → c4out.get? j = some n' →
        n'.visits = n.visits + 1 →
        n'.reward = n.reward + (3 - gameSpecTicTacToe.current_reward rootPair2.state)) ∧
     (∃ n', c4out.get? 0 = some n' ∧ n'.visits = rootPair2.visits + 1 ∧
        n'.reward = rootPair2.reward
          + (3 - gameSpecTicTacToe.current_reward rootPair2.state))) :=
  ⟨wfp_pair2_holds, rfl, rfl,
   spec_end_backprop_delta gameSpecTicTacToe arenaPair2 c4out 1 3 rootPair2
     wfp_pair2_holds rfl rfl⟩

/-! ## Game-level helper lemmas for claims C5 and C6 -/

/-- Membership in TicTacToe's `allowed_actions`: the state is non-terminal and
the indexed cell exists and is empty. -/
theorem ttt_mem_allowed {s : TicTacToe} {a : Action} :
    a ∈ s.allowed_actions ↔ s.is_terminal = false ∧ s.board.get? a = some Cell.Empty := by
  unfold TicTacToe.allowed_actions
  by_cases ht : s.is_terminal
  · simp [ht]
  · simp only [ht, if_false, Bool.false_eq_true, not_false_iff, ite_false,
      List.mem_map, List.mem_filter]
    constructor
    · rintro ⟨⟨i, c⟩, ⟨hmem, hc⟩, rfl⟩
      have hic : s.board[i]? = some c := List.mk_mem_enum_iff_getElem?.mp hmem
      simp only [decide_eq_true_eq] at hc
      subst hc
      exact ⟨by simpa using ht, by rw [List.get?_eq_getElem?]; exact hic⟩
    · rintro ⟨-, hget⟩
      refine ⟨(a, Cell.Empty), ⟨List.mk_mem_enum_iff_getElem?.mpr ?_, by simp⟩, rfl⟩
      rw [← List.get?_eq_getElem?]
      exact hget

/-- TicTacToe's `stepMut` errs exactly on the three checked conditions. -/
theorem ttt_stepMut_err_iff (s : TicTacToe) (a : Action) :
    (TicTacToe.stepMut s a).1.isOk = false ↔
      (a ≥ 9 ∨ s.board.getD a Cell.Empty ≠ Cell.Empty ∨ s.is_terminal = true) := by
  unfold TicTacToe.stepMut
  by_cases c1 : a ≥ 9
  · rw [if_pos c1]
    exact iff_of_true rfl (Or.inl c1)
  · rw [if_neg c1]
    by_cases c2 : s.board.getD a Cell.Empty ≠ Cell.Empty
    · rw [if_pos c2]
      exact iff_of_true rfl (Or.inr (Or.inl c2))
    · rw [if_neg c2]
      by_cases c3 : s.is_terminal
      · rw [if_pos c3]
        exact iff_of_true rfl (Or.inr (Or.inr c3))
      · rw [if_neg c3]
        refine iff_of_false (by simp [Except.isOk, Except.toBool]) ?_
        rintro (hh | hh | hh)
        · exact c1 hh
        · exact c2 hh
        · exact c3 hh

/-- TicTacToe's `stepMut` leaves the state untouched whenever it errs. -/
theorem ttt_stepMut_err_unchanged (s : TicTacToe) (a : Action)
    (h : (TicTacToe.stepMut s a).1.isOk = false) : (TicTacToe.stepMut s a).2 = s := by
  unfold TicTacToe.stepMut at h ⊢
  by_cases c1 : a ≥ 9
  · rw [if_pos c1]
  · rw [if_neg c1] at h ⊢
    by_cases c2 : s.board.getD a Cell.Empty ≠ Cell.Empty
    · rw [if_pos c2]
    · rw [if_neg c2] at h ⊢
      by_cases c3 : s.is_terminal
      · rw [if_pos c3]
      · rw [if_neg c3] at h
        simp [Except.isOk, Except.toBool] at h

/-- The shape of a successful TicTacToe step. -/
theorem ttt_step_ok_shape {s s' : TicTacToe} {a : Action}
    (h : TicTacToe.step s a = .ok s') :
    a < 9 ∧ s.board.getD a Cell.Empty = Cell.Empty ∧ s.is_terminal = false ∧
    s' = { s with
           board := s.board.set a (Cell.Occupied s.current_player),
           result := TicTacToe.updateResult
             { s with board := s.board.set a (Cell.Occupied s.current_player) },
           current_player := s.current_player.opponent } := by
  unfold TicTacToe.step TicTacToe.stepMut at h
  split at h
  case h_2 e s2 heq => exact absurd h (by simp)
  case h_1 u s2 heq =>
    split at heq
    case isTrue => exact absurd heq (by simp)
    case isFalse h1 =>
      split at heq
      case isTrue => exact absurd heq (by simp)
      case isFalse h2 =>
        split at heq
        case isTrue => exact absurd heq (by simp)
        case isFalse h3 =>
          rw [Prod.mk.injEq] at heq
          obtain ⟨-, rfl⟩ := heq
          obtain rfl : _ = s' := Except.ok.inj h
          exact ⟨Nat.lt_of_not_le h1, not_not.mp h2, by simpa using h3, rfl⟩

/-- `applySteps` preserves the TicTacToe board length. -/
theorem ttt_applySteps_len :
    ∀ (acts : List Action) (s0 s : TicTacToe),
      TicTacToe.applySteps s0 acts = some s → s.board.length = s0.board.length := by
  intro acts
  induction acts with
  | nil =>
      intro s0 s h
      simp only [TicTacToe.applySteps] at h
      obtain rfl : s0 = s := by injection h
      rfl
  | cons a rest ih =>
      intro s0 s h
      simp only [TicTacToe.applySteps] at h
      cases hst : TicTacToe.step s0 a with
      | error e => rw [hst] at h; exact absurd h (by simp)
      | ok s1 =>
          rw [hst] at h
          dsimp only at h
          obtain ⟨-, -, -, hs1⟩ := ttt_step_ok_shape hst
          have := ih s1 s h
          rw [this, hs1]
          simp

/-- Every reachable TicTacToe state keeps the `[Cell; 9]` board length. -/
theorem ttt_reach_len {s : TicTacToe} (h : TicTacToe.Reachable s) :
    s.board.length = 9 := by
  obtain ⟨acts, hacts⟩ := h
  rw [ttt_applySteps_len acts TicTacToe.init s hacts]
  rfl

/-- A reachable TicTacToe state is the start state or the output of a
successful step. -/
theorem ttt_reach_cases :
    ∀ (acts : List Action) (s0 s : TicTacToe),
      TicTacToe.applySteps s0 acts = some s →
      s = s0 ∨ ∃ t a, TicTacToe.step t a = .ok s := by
  intro acts
  induction acts with
  | nil =>
      intro s0 s h
      simp only [TicTacToe.applySteps] at h
      obtain rfl : s0 = s := by injection h
      exact Or.inl rfl
  | cons a rest ih =>
      intro s0 s h
      simp only [TicTacToe.applySteps] at h
      cases hst : TicTacToe.step s0 a with
      | error e => rw [hst] at h; exact absurd h (by simp)
      | ok s1 =>
          rw [hst] at h
          dsimp only at h
          rcases ih s1 s h with rfl | hex
          · exact Or.inr ⟨s0, a, hst⟩
          · exact Or.inr hex

/-- A full board makes TicTacToe's `updateResult` report a result. -/
theorem ttt_result_full (s : TicTacToe)
    (h : s.board.all (fun c => c ≠ Cell.Empty) = true) :
    (TicTacToe.updateResult s).isSome = true := by
  unfold TicTacToe.updateResult
  cases hw : TicTacToe.WIN_LINES.findSome? (TicTacToe.lineWinner s.board) with
  | some p => simp
  | none =>
      dsimp only
      rw [if_pos h]
      rfl

/-- Membership in Connect4's `allowed_actions`: the state is non-terminal, the
column index is in range and the column's top cell is empty. -/
theorem c4_mem_allowed {s : Connect4} {a : Action} :
    a ∈ s.allowed_actions ↔
      s.is_terminal = false ∧ a < Connect4.COLS ∧
      (Connect4.cellAt s.board 0 a).isNone = true := by
  unfold Connect4.allowed_actions
  by_cases ht : s.is_terminal
  · simp [ht]
  · simp only [ht, if_false, Bool.false_eq_true, not_false_iff, ite_false,
      List.mem_filter, List.mem_range]
    constructor
    · rintro ⟨hlt, hcell⟩
      exact ⟨by simpa using ht, hlt, by simpa using hcell⟩
    · rintro ⟨-, hlt, hcell⟩
      exact ⟨hlt, by simpa using hcell⟩

/-- Connect4's `drop_piece` succeeds whenever the column's top cell is empty:
row 0 is always a candidate. -/
theorem c4_dropPiece_ok {s : Connect4} {a : Action}
    (h : (Connect4.cellAt s.board 0 a).isNone = true) :
    ∃ row, ((List.range Connect4.ROWS).reverse.find?
        fun row => (Connect4.cellAt s.board row a).isNone) = some row ∧
      Connect4.dropPieceMut s a = (.ok (), { s with board := s.board.set row ((s.board.getD row []).set a (some s.current_player)) }) := by
  have hmem : (0 : Nat) ∈ (List.range Connect4.ROWS).reverse := by
    rw [List.mem_reverse, List.mem_range]
    decide
  have hsome : (((List.range Connect4.ROWS).reverse.find?
      fun row => (Connect4.cellAt s.board row a).isNone)).isSome = true := by
    rw [List.find?_isSome]
    exact ⟨0, hmem, h⟩
  cases hfind : ((List.range Connect4.ROWS).reverse.find?
      fun row => (Connect4.cellAt s.board row a).isNone) with
  | none => rw [hfind] at hsome; exact absurd hsome (by simp)
  | some row =>
      have hdrop : Connect4.dropPieceMut s a = (.ok (), { s with board := s.board.set row ((s.board.getD row []).set a (some s.current_player)) }) := by
        unfold Connect4.dropPieceMut
        rw [hfind]
      exact ⟨row, rfl, hdrop⟩

/-- Connect4's `stepMut` errs exactly on the three checked conditions. -/
theorem c4_stepMut_err_iff (s : Connect4) (a : Action) :
    (Connect4.stepMut s a).1.isOk = false ↔
      (a ≥ Connect4.COLS ∨ (Connect4.cellAt s.board 0 a).isSome = true ∨
        s.is_terminal = true) := by
  unfold Connect4.stepMut
  by_cases c1 : a ≥ Connect4.COLS
  · rw [if_pos c1]
    exact iff_of_true rfl (Or.inl c1)
  · rw [if_neg c1]
    by_cases c2 : (Connect4.cellAt s.board 0 a).isSome = true
    · rw [if_pos c2]
      exact iff_of_true rfl (Or.inr (Or.inl c2))
    · rw [if_neg c2]
      by_cases c3 : s.is_terminal
      · rw [if_pos c3]
        exact iff_of_true rfl (Or.inr (Or.inr c3))
      · rw [if_neg c3]
        obtain ⟨row, hfind, hdrop⟩ := c4_dropPiece_ok (a := a)
          (by rw [Option.isNone_iff_eq_none]; exact Option.not_isSome_iff_eq_none.mp c2)
        rw [hdrop]
        refine iff_of_false (by simp [Except.isOk, Except.toBool]) ?_
        rintro (hh | hh | hh)
        · exact c1 hh
        · exact c2 hh
        · exact c3 hh

/-- Connect4's `stepMut` leaves the state untouched whenever it errs. -/
theorem c4_stepMut_err_unchanged (s : Connect4) (a : Action)
    (h : (Connect4.stepMut s a).1.isOk = false) : (Connect4.stepMut s a).2 = s := by
  unfold Connect4.stepMut at h ⊢
  by_cases c1 : a ≥ Connect4.COLS
  · rw [if_pos c1]
  · rw [if_neg c1] at h ⊢
    by_cases c2 : (Connect4.cellAt s.board 0 a).isSome = true
    · rw [if_pos c2]
    · rw [if_neg c2] at h ⊢
      by_cases c3 : s.is_terminal
      · rw [if_pos c3]
      · rw [if_neg c3] at h
        obtain ⟨row, hfind, hdrop⟩ := c4_dropPiece_ok (a := a)
          (by rw [Option.isNone_iff_eq_none]; exact Option.not_isSome_iff_eq_none.mp c2)
        rw [hdrop] at h
        simp [Except.isOk, Except.toBool] at h

/-- `<Tetris as Game>::step` never returns an error. -/
theorem tetris_stepG_ok (s : Tetris) (a : Action) :
    ∀ r ∈ Tetris.stepG s a, r.isOk = true := by
  intro r hr
  unfold Tetris.stepG at hr
  cases hi : Tetris.stepInner s (ActionT.ofU8 (a % 256)) with
  | none => rw [hi] at hr; exact absurd hr (by simp)
  | some s' =>
      rw [hi] at hr
      dsimp only at hr
      obtain rfl : Except.ok s' = r := by
        simp only [Option.mem_def] at hr
        injection hr
      rfl

/-- Witness for C8 on the concrete node fixtures. -/
theorem uct_zero_visits_sup_witness :
    node2Fresh.visits = 0 ∧ 1 ≤ node2Seen.visits ∧ 1 ≤ (4 : ℚ) ∧
    node1Fresh.visits = 0 ∧ 1 ≤ node1Seen.visits ∧ 1 ≤ (4 : Nat) ∧
    (node2Fresh.uct 4 = ⊤ ∧ node2Seen.uct 4 < ⊤ ∧ node2Seen.uct 4 < node2Fresh.uct 4 ∧
     node1Fresh.ucb1 4 2 = ⊤ ∧ node1Seen.ucb1 4 2 < ⊤ ∧
     node1Seen.ucb1 4 2 < node1Fresh.ucb1 4 2) :=
  ⟨by decide, by decide, by norm_num, by decide, by decide, by norm_num,
   uct_zero_visits_sup node2Fresh node2Seen 4 node1Fresh node1Seen 4 2
     (by decide) (by decide) (by norm_num) (by decide) (by decide) (by norm_num)⟩

/-! ## List bridges for `getD`-based indexing -/

theorem list_getD_eq_get? {α : Type*} (l : List α) (n : Nat) (d : α) :
    l.getD n d = (l.get? n).getD d := by
  rw [List.get?_eq_getElem?]
  exact List.getD_eq_getElem?_getD l n d

theorem list_get?_eq_some_getD {α : Type*} (l : List α) (a : Nat) (d : α) (h : a < l.length) :
    l.get? a = some (l.getD a d) := by
  rw [List.get?_eq_getElem?, List.getElem?_eq_getElem h,
    List.getD_eq_getElem?_getD, List.getElem?_eq_getElem h]
  rfl

theorem getD_zero_set {α : Type*} (l : List (List α)) (row : Nat) (w : List α)
    (hw : w.length = (l.getD row []).length) :
    ((l.set row w).getD 0 []).length = (l.getD 0 []).length := by
  by_cases hrow : row = 0
  · subst hrow
    cases l with
    | nil => rfl
    | cons x t => exact hw
  · rw [list_getD_eq_get?, list_getD_eq_get?, arenaGet_set_ne _ w hrow]

/-- The shape of a successful Connect4 step: `drop_piece` found a row, the
board gains exactly that one disc, and `result` is `update_result` of the
post-drop state. -/
theorem c4_step_ok_shape {s s' : Connect4} {a : Action}
    (h : Connect4.step s a = .ok s') :
    ∃ row, ((List.range Connect4.ROWS).reverse.find?
        fun r => (Connect4.cellAt s.board r a).isNone) = some row ∧
      s'.board = s.board.set row ((s.board.getD row []).set a (some s.current_player)) ∧
      s'.result = Connect4.updateResult
        { s with board := s.board.set row ((s.board.getD row []).set a (some s.current_player)) } := by
  unfold Connect4.step Connect4.stepMut at h
  split at h
  case h_2 e s2 heq => exact absurd h (by simp)
  case h_1 u s2 heq =>
    split at heq
    case isTrue => exact absurd heq (by simp)
    case isFalse h1 =>
      split at heq
      case isTrue => exact absurd heq (by simp)
      case isFalse h2 =>
        split at heq
        case isTrue => exact absurd heq (by simp)
        case isFalse h3 =>
          obtain ⟨row, hfind, hdrop⟩ := c4_dropPiece_ok (a := a)
            (by rw [Option.isNone_iff_eq_none]; exact Option.not_isSome_iff_eq_none.mp h2)
          rw [hdrop] at heq
          dsimp only at heq
          rw [Prod.mk.injEq] at heq
          obtain ⟨-, rfl⟩ := heq
          obtain rfl : _ = s' := Except.ok.inj h
          exact ⟨row, hfind, rfl, rfl⟩

/-- `applySteps` preserves the Connect4 board's row count and top-row width. -/
theorem c4_applySteps_shape :
    ∀ (acts : List Action) (s0 s : Connect4),
      Connect4.applySteps s0 acts = some s →
      s.board.length = s0.board.length ∧
      (s.board.getD 0 []).length = (s0.board.getD 0 []).length := by
  intro acts
  induction acts with
  | nil =>
      intro s0 s h
      obtain rfl : s0 = s := by injection h
      exact ⟨rfl, rfl⟩
  | cons a rest ih =>
      intro s0 s h
      simp only [Connect4.applySteps] at h
      cases hst : Connect4.step s0 a with
      | error e => rw [hst] at h; exact absurd h (by simp)
      | ok s1 =>
          rw [hst] at h
          dsimp only at h
          obtain ⟨ih1, ih2⟩ := ih s1 s h
          obtain ⟨row, hfind, hbd, hres⟩ := c4_step_ok_shape hst
          refine ⟨?_, ?_⟩
          · rw [ih1, hbd, List.length_set]
          · rw [ih2, hbd, getD_zero_set]
            exact List.length_set _ _ _

/-- A reachable Connect4 board keeps the `[[Cell; COLS]; ROWS]` dimensions. -/
theorem c4_reach_shape {s : Connect4} (h : Connect4.Reachable s) :
    s.board.length = Connect4.ROWS ∧ (s.board.getD 0 []).length = Connect4.COLS := by
  obtain ⟨acts, hacts⟩ := h
  obtain ⟨h1, h2⟩ := c4_applySteps_shape acts Connect4.init s hacts
  exact ⟨by rw [h1]; rfl, by rw [h2]; rfl⟩

/-- A reachable Connect4 state is the start state or the output of a
successful step. -/
theorem c4_reach_cases :
    ∀ (acts : List Action) (s0 s : Connect4),
      Connect4.applySteps s0 acts = some s →
      s = s0 ∨ ∃ t a, Connect4.step t a = .ok s := by
  intro acts
  induction acts with
  | nil =>
      intro s0 s h
      obtain rfl : s0 = s := by injection h
      exact Or.inl rfl
  | cons a rest ih =>
      intro s0 s h
      simp only [Connect4.applySteps] at h
      cases hst : Connect4.step s0 a with
      | error e => rw [hst] at h; exact absurd h (by simp)
      | ok s1 =>
          rw [hst] at h
          dsimp only at h
          rcases ih s1 s h with rfl | hex
          · exact Or.inr ⟨s0, a, hst⟩
          · exact Or.inr hex

/-- A full top row makes Connect4's `updateResult` report a result. -/
theorem c4_result_full (s : Connect4)
    (h : ((s.board.getD 0 []).all fun c => c.isSome) = true) :
    (Connect4.updateResult s).isSome = true := by
  unfold Connect4.updateResult
  cases h1 : Connect4.horizWin s.board with
  | some p => simp
  | none =>
      dsimp only
      cases h2 : Connect4.vertWin s.board with
      | some p => simp
      | none =>
          dsimp only
          cases h3 : Connect4.diagUpWin s.board with
          | some p => simp
          | none =>
              dsimp only
              cases h4 : Connect4.diagDownWin s.board with
              | some p => simp
              | none =>
                  dsimp only
                  rw [if_pos h]
                  rfl

/-- **C5 (amended).** Error behaviour of `step` across the three games.  For
TicTacToe (on reachable states, where the board keeps its 9 cells) and for
Connect4 (on all states), `step` errs exactly when the action is not in
`allowed_actions` or the state is already terminal, and an erring `step`
leaves the `&mut self` receiver unchanged.  `<Tetris as Game>::step`, by
contrast, never returns an error at all: it funnels every action value —
legal or not — through `From<u8>` (invalid values become `NoOp`) and always
answers `Ok`, so the claim's "error iff illegal-or-terminal" direction fails
for Tetris (see the counterexample). -/
theorem step_error_iff_illegal_or_terminal :
    (∀ (s : TicTacToe) (a : Action), TicTacToe.Reachable s →
      ((TicTacToe.stepMut s a).1.isOk = false ↔
        (a ∉ s.allowed_actions ∨ s.is_terminal = true)) ∧
      ((TicTacToe.stepMut s a).1.isOk = false → (TicTacToe.stepMut s a).2 = s)) ∧
    (∀ (s : Connect4) (a : Action),
      ((Connect4.stepMut s a).1.isOk = false ↔
        (a ∉ s.allowed_actions ∨ s.is_terminal = true)) ∧
      ((Connect4.stepMut s a).1.isOk = false → (Connect4.stepMut s a).2 = s)) ∧
    (∀ (s : Tetris) (a : Action), ∀ r ∈ Tetris.stepG s a, r.isOk = true) := by
  refine ⟨?_, ?_, ?_⟩
  · intro s a hreach
    have hlen : s.board.length = 9 := ttt_reach_len hreach
    refine ⟨?_, ttt_stepMut_err_unchanged s a⟩
    rw [ttt_stepMut_err_iff]
    constructor
    · rintro (h1 | h2 | h3)
      · refine Or.inl ?_
        rw [ttt_mem_allowed]
        rintro ⟨-, hget⟩
        have := arenaGet_lt hget
        rw [hlen] at this
        exact absurd this (Nat.not_lt.mpr h1)
      · refine Or.inl ?_
        rw [ttt_mem_allowed]
        rintro ⟨-, hget⟩
        apply h2
        rw [list_getD_eq_get?, hget]
        rfl
      · exact Or.inr h3
    · rintro (hna | ht)
      · by_cases c1 : a ≥ 9
        · exact Or.inl c1
        by_cases c3 : s.is_terminal
        · exact Or.inr (Or.inr c3)
        refine Or.inr (Or.inl ?_)
        intro heq
        apply hna
        rw [ttt_mem_allowed]
        refine ⟨by simpa using c3, ?_⟩
        rw [list_get?_eq_some_getD s.board a Cell.Empty (by rw [hlen]; exact Nat.lt_of_not_le c1), heq]
      · exact Or.inr (Or.inr ht)
  · intro s a
    refine ⟨?_, c4_stepMut_err_unchanged s a⟩
    rw [c4_stepMut_err_iff]
    constructor
    · rintro (h1 | h2 | h3)
      · refine Or.inl ?_
        rw [c4_mem_allowed]
        rintro ⟨-, hlt, -⟩
        exact absurd hlt (Nat.not_lt.mpr h1)
      · refine Or.inl ?_
        rw [c4_mem_allowed]
        rintro ⟨-, -, hnone⟩
        rw [Option.isNone_iff_eq_none] at hnone
        rw [hnone] at h2
        exact absurd h2 (by simp)
      · exact Or.inr h3
    · rintro (hna | ht)
      · by_cases c3 : s.is_terminal
        · exact Or.inr (Or.inr c3)
        by_cases c1 : a ≥ Connect4.COLS
        · exact Or.inl c1
        refine Or.inr (Or.inl ?_)
        by_contra hns
        apply hna
        rw [c4_mem_allowed]
        exact ⟨by simpa using c3, Nat.lt_of_not_le c1,
          by rw [Option.isNone_iff_eq_none]; exact Option.not_isSome_iff_eq_none.mp hns⟩
      · exact Or.inr (Or.inr ht)
  · exact tetris_stepG_ok

/-- Witness for C5: at the start states, the out-of-range TicTacToe action 9
and Connect4 action 7 err and leave the state untouched, while Tetris's step
on the illegal action 7 returns `Ok`. -/
theorem step_error_iff_illegal_or_terminal_witness :
    TicTacToe.Reachable TicTacToe.init ∧
    ((TicTacToe.stepMut TicTacToe.init 9).1.isOk = false ↔
      ((9 : Action) ∉ TicTacToe.init.allowed_actions ∨ TicTacToe.init.is_terminal = true)) ∧
    (TicTacToe.stepMut TicTacToe.init 9).2 = TicTacToe.init ∧
    ((Connect4.stepMut Connect4.init 7).1.isOk = false ↔
      ((7 : Action) ∉ Connect4.init.allowed_actions ∨ Connect4.init.is_terminal = true)) ∧
    (Connect4.stepMut Connect4.init 7).2 = Connect4.init ∧
    Except.ok tetrisAfter7 ∈ Tetris.stepG tetrisInit 7 ∧
    (Except.ok tetrisAfter7 : Except String Tetris).isOk = true :=
  ⟨⟨[], rfl⟩,
   (step_error_iff_illegal_or_terminal.1 TicTacToe.init 9 ⟨[], rfl⟩).1,
   (step_error_iff_illegal_or_terminal.1 TicTacToe.init 9 ⟨[], rfl⟩).2 (by decide),
   (step_error_iff_illegal_or_terminal.2.1 Connect4.init 7).1,
   (step_error_iff_illegal_or_terminal.2.1 Connect4.init 7).2 (by decide),
   rfl,
   step_error_iff_illegal_or_terminal.2.2 tetrisInit 7 (Except.ok tetrisAfter7) rfl⟩

/-- **C6 (amended).** Empty `allowed_actions` versus terminality.  For
reachable TicTacToe and Connect4 states, `allowed_actions` is empty exactly
when `result` is `Some` (both implementations return `[]` on terminal states,
and a reachable non-terminal state always has a free cell / non-full column,
since a filled board would have set `result` on the producing step).  Tetris
breaks the equivalence in the other direction: its `allowed_actions`
unconditionally starts with `NoOp` and is never empty, terminal or not (see
the counterexample). -/
theorem allowed_empty_iff_terminal :
    (∀ s : TicTacToe, TicTacToe.Reachable s →
      (s.allowed_actions = [] ↔ s.result.isSome = true)) ∧
    (∀ s : Connect4, Connect4.Reachable s →
      (s.allowed_actions = [] ↔ s.result.isSome = true)) ∧
    (∀ s : Tetris, s.allowed_actions ≠ []) := by
  refine ⟨?_, ?_, ?_⟩
  · intro s hreach
    by_cases htm : s.is_terminal
    · refine iff_of_true ?_ htm
      unfold TicTacToe.allowed_actions
      rw [if_pos htm]
    · refine iff_of_false ?_ htm
      intro hemp
      have hful : (s.board.all fun c => c ≠ Cell.Empty) = true := by
        rw [List.all_eq_true]
        intro c hc
        obtain ⟨i, hi⟩ := List.mem_iff_getElem?.mp hc
        simp only [ne_eq, decide_not, Bool.not_eq_true', decide_eq_false_iff_not, not_not] at *
        intro hce
        subst hce
        have hmem : i ∈ s.allowed_actions := by
          rw [ttt_mem_allowed]
          exact ⟨by simpa using htm, by rw [List.get?_eq_getElem?]; exact hi⟩
        rw [hemp] at hmem
        exact absurd hmem (List.not_mem_nil i)
      obtain ⟨acts, hacts⟩ := hreach
      rcases ttt_reach_cases acts TicTacToe.init s hacts with rfl | ⟨t, b, hst⟩
      · exact absurd hful (by decide)
      · obtain ⟨-, -, -, rfl⟩ := ttt_step_ok_shape hst
        exact htm (ttt_result_full _ hful)
  · intro s hreach
    by_cases htm : s.is_terminal
    · refine iff_of_true ?_ htm
      unfold Connect4.allowed_actions
      rw [if_pos htm]
    · refine iff_of_false ?_ htm
      intro hemp
      obtain ⟨hrows, hcols⟩ := c4_reach_shape hreach
      have hful : ((s.board.getD 0 []).all fun c => c.isSome) = true := by
        rw [List.all_eq_true]
        intro c hc
        obtain ⟨i, hi⟩ := List.mem_iff_getElem?.mp hc
        have hilt : i < Connect4.COLS := by
          rw [← hcols]
          exact (List.getElem?_eq_some_iff.mp hi).1
        have hcell : Connect4.cellAt s.board 0 i = c := by
          unfold Connect4.cellAt
          rw [list_getD_eq_get?, List.get?_eq_getElem?, hi]
          rfl
        by_contra hns
        have hmem : i ∈ s.allowed_actions := by
          rw [c4_mem_allowed]
          refine ⟨by simpa using htm, hilt, ?_⟩
          rw [hcell, Option.isNone_iff_eq_none]
          exact Option.not_isSome_iff_eq_none.mp hns
        rw [hemp] at hmem
        exact absurd hmem (List.not_mem_nil i)
      obtain ⟨acts, hacts⟩ := hreach
      rcases c4_reach_cases acts Connect4.init s hacts with rfl | ⟨t, b, hst⟩
      · exact absurd hful (by decide)
      · obtain ⟨row, hfind, hbd, hres⟩ := c4_step_ok_shape hst
        rw [hbd] at hful
        have hterm : s.is_terminal = true := by
          unfold Connect4.is_terminal
          rw [hres]
          exact c4_result_full _ hful
        exact htm hterm
  · intro s h
    have hmem : ActionT.NoOp.toNat ∈ s.allowed_actions := by
      unfold Tetris.allowed_actions
      simp
    rw [h] at hmem
    exact absurd hmem (List.not_mem_nil _)

/-- Witness for C6: at the start states of the three games. -/
theorem allowed_empty_iff_terminal_witness :
    TicTacToe.Reachable TicTacToe.init ∧ Connect4.Reachable Connect4.init ∧
    (TicTacToe.init.allowed_actions = [] ↔ TicTacToe.init.result.isSome = true) ∧
    (Connect4.init.allowed_actions = [] ↔ Connect4.init.result.isSome = true) ∧
    tetrisInit.allowed_actions ≠ [] :=
  ⟨⟨[], rfl⟩, ⟨[], rfl⟩,
   allowed_empty_iff_terminal.1 TicTacToe.init ⟨[], rfl⟩,
   allowed_empty_iff_terminal.2.1 Connect4.init ⟨[], rfl⟩,
   allowed_empty_iff_terminal.2.2 tetrisInit⟩

end MctsVerify
